import Mathlib

/-!
Verification development for the pseudo-IPD reconstruction engine
(Guyot method) of the economic-modeling repository.

The Python sources are shallowly embedded: real numbers are modelled as
rationals, pandas DataFrames as lists of structures, and every random or
library-provided ingredient (numpy uniform/normal draws, pandas `sample`
with a fixed seed) is passed in as an explicit function parameter whose
characteristic properties appear as hypotheses.  Two implementations of
the engine exist in the repository and both are embedded:

* `km_scripts/ipd_builder.py` (class `IPDBuilderAgent`): definitions
  prefixed with nothing or marked "km_scripts" in comments —
  `cleanKMData`, `alignAtRiskS`, `guyotFloatCounts`, `kmScriptsCounts`,
  `validateReconstructionMAE`, `validateIpdIntegrity`, `normalizePopS`.
* `python-service/km_extractor.py` (class `IPDBuilder`): the
  "extractor" definitions — `normalizeScale`, `filterEventTimes`,
  `alignAtRiskE`, `extractorFloatCounts`, `accumRound`, `synthRecords`,
  `normalizePopE`, `kmExtractorReconstruct`.

Pandas `sort_values` (an unstable sort on the time column) is modelled
by `List.insertionSort` on the time key; every property proved here is
insensitive to the order of ties.
-/

/-- Python/numpy `round`: round half to even (banker's rounding). -/
def pyRound (q : ℚ) : ℤ :=
  let f : ℤ := ⌊q⌋
  let r : ℚ := q - f
  if r < 1/2 then f
  else if 1/2 < r then f + 1
  else if f % 2 = 0 then f else f + 1

/-- Python `int(...)` on a real value: truncation toward zero. -/
def pyInt (q : ℚ) : ℤ :=
  if 0 ≤ q then ⌊q⌋ else ⌈q⌉

/-- Tail of pandas `cummin` given the running minimum so far. -/
def cumminAux [LinearOrder α] (m : α) : List α → List α
  | [] => []
  | x :: xs => min m x :: cumminAux (min m x) xs

/-- pandas `Series.cummin`: running minimum. -/
def cummin [LinearOrder α] : List α → List α
  | [] => []
  | x :: xs => x :: cumminAux x xs

/-- pandas `Series.max` (0 on the empty list, which the sources never hit). -/
def listMax : List ℚ → ℚ
  | [] => 0
  | x :: xs => xs.foldl max x

/-- pandas `Series.min` (0 on the empty list, which the sources never hit). -/
def listMin : List ℚ → ℚ
  | [] => 0
  | x :: xs => xs.foldl min x

/-- One digitized KM curve point (`time_months`/`time`, `survival`).
The endpoint and arm labels are constant within one reconstruction and
are not carried. -/
structure KMPoint where
  time : ℚ
  survival : ℚ
deriving DecidableEq

/-- One aligned grid point `(time, survival, n_risk)`. -/
structure AlignedPoint where
  time : ℚ
  survival : ℚ
  nrisk : ℤ
deriving DecidableEq

/-- One synthetic patient: follow-up time and event flag.  The
`patient_id` column is the record's position in the emitted list and the
`arm` column is a constant label; neither is carried. -/
structure PatientRecord where
  time : ℚ
  event : ℤ
deriving DecidableEq

instance : Inhabited PatientRecord := ⟨⟨0, 0⟩⟩

/-- `sort_values` on the time column of a KM frame. -/
def sortByTimeK (l : List KMPoint) : List KMPoint :=
  List.insertionSort (fun a b => a.time ≤ b.time) l

/-- `sort_values('time')` on a patient-record frame. -/
def sortByTime (l : List PatientRecord) : List PatientRecord :=
  List.insertionSort (fun a b => a.time ≤ b.time) l

/-- `sort_values` on the time column of an at-risk frame. -/
def sortByFst (l : List (ℚ × ℤ)) : List (ℚ × ℤ) :=
  List.insertionSort (fun a b => a.1 ≤ b.1) l

/-- `groupby('time_months')` on a time-sorted frame: runs of equal times
with the survival values of each group. -/
def groupRuns : List KMPoint → List (ℚ × List ℚ)
  | [] => []
  | p :: ps =>
    match groupRuns ps with
    | [] => [(p.time, [p.survival])]
    | (t, g) :: rest =>
      if p.time = t then (t, p.survival :: g) :: rest
      else (p.time, [p.survival]) :: (t, g) :: rest

/-- pandas `Series.quantile(0.3)` (linear interpolation on the sorted
values), used by the PFS collapse rule for groups of three or more. -/
def quantile30 (l : List ℚ) : ℚ :=
  let v := List.insertionSort (fun a b : ℚ => a ≤ b) l
  let pos : ℚ := (3/10) * ((l.length : ℚ) - 1)
  let i : ℕ := (⌊pos⌋).toNat
  let frac : ℚ := pos - (⌊pos⌋ : ℤ)
  if i + 1 < v.length then v.getD i 0 + (v.getD (i + 1) 0 - v.getD i 0) * frac
  else v.getD i 0

/-- `advanced_pfs_survival` from `_clean_km_data`: the PFS duplicate-time
collapse rule. -/
def pfsCollapse : List ℚ → ℚ
  | [] => 0
  | [x] => x
  | [a, b] =>
    let lo := min a b
    let hi := max a b
    if 3/100 < hi - lo then (85/100) * lo + (15/100) * hi
    else (65/100) * lo + (35/100) * hi
  | g => quantile30 g

/-- Duplicate-time collapse: PFS rule or plain minimum (OS default). -/
def collapseGroup (isPFS : Bool) (g : List ℚ) : ℚ :=
  if isPFS then pfsCollapse g else listMin g

/-- The residual duplicate-time perturbation of `_clean_km_data`
(`time += 0.001 * idx` on rows whose time equals the previous row's).
Dead code after the groupby, but embedded faithfully. -/
def perturbDuplicates (l : List KMPoint) : List KMPoint :=
  l.enum.map (fun ip =>
    if 0 < ip.1 ∧ (l.get? (ip.1 - 1)).map (fun q => q.time) = some ip.2.time
    then { ip.2 with time := ip.2.time + (1/1000) * (ip.1 : ℚ) } else ip.2)

/-- `IPDBuilderAgent._clean_km_data` (the CurveNormalizer): sort, collapse
duplicate times, force non-increasing survival via `cummin`, perturb any
residual duplicate times. -/
def cleanKMData (isPFS : Bool) (pts : List KMPoint) : List KMPoint :=
  if pts = [] then pts
  else
    let grouped := (groupRuns (sortByTimeK pts)).map
      (fun g => KMPoint.mk g.1 (collapseGroup isPFS g.2))
    let grouped2 := sortByTimeK grouped
    let mono := (grouped2.zip (cummin (grouped2.map (fun p => p.survival)))).map
      (fun pm => { pm.1 with survival := pm.2 })
    perturbDuplicates mono

/-- Replace the survival column by its running minimum. -/
def applySurvCummin (rows : List AlignedPoint) : List AlignedPoint :=
  (rows.zip (cummin (rows.map (fun p => p.survival)))).map
    (fun pm => { pm.1 with survival := pm.2 })

/-- Replace the n_risk column by its running minimum. -/
def applyRiskCummin (rows : List AlignedPoint) : List AlignedPoint :=
  (rows.zip (cummin (rows.map (fun p => p.nrisk)))).map
    (fun pm => { pm.1 with nrisk := pm.2 })

/-- Survival lookup of `IPDBuilderAgent._align_atrisk_data`: exact match
within 1e-6, else the most recent KM value at or before `t`, else the
first KM value (1.0 if the curve is empty). -/
def stepSurvivalAt (km : List KMPoint) (t : ℚ) : ℚ :=
  match km.find? (fun p => decide (|p.time - t| < 1/1000000)) with
  | some p => p.survival
  | none =>
    match (km.filter (fun p => decide (p.time ≤ t))).getLast? with
    | some p => p.survival
    | none =>
      match km.head? with
      | some p => p.survival
      | none => 1

/-- `IPDBuilderAgent._align_atrisk_data` (the RiskAligner, km_scripts
variant): at-risk table as primary grid with step-function survival
lookup, then `cummin` on both survival and n_risk; with no at-risk table,
estimate `n_risk = round(100 * survival)`. -/
def alignAtRiskS (km : List KMPoint) (ar : List (ℚ × ℤ)) : List AlignedPoint :=
  if ar = [] then
    km.map (fun p => AlignedPoint.mk p.time p.survival (pyRound (100 * p.survival)))
  else
    let km2 := sortByTimeK km
    let rows := (sortByFst ar).map (fun a => AlignedPoint.mk a.1 (stepSurvivalAt km2 a.1) a.2)
    applyRiskCummin (applySurvCummin rows)

/-- One interval of the Guyot recurrence as computed by
`IPDBuilderAgent._reconstruct_ipd_guyot` (km_scripts, lines 144-168):
events `d = n_risk * (1 - s_next / s_curr)` when `s_curr > 0` and
`s_next < s_curr`, else 0; censored `c = n_curr - n_next - d`; both then
clamped to be non-negative.  These are the fractional counts before the
per-interval rounding of lines 170-171. -/
def guyotIntervalFloat (p q : AlignedPoint) : ℚ × ℚ :=
  let d : ℚ :=
    if 0 < p.survival ∧ q.survival < p.survival
    then (p.nrisk : ℚ) * (1 - q.survival / p.survival) else 0
  let c : ℚ := (p.nrisk : ℚ) - (q.nrisk : ℚ) - d
  (max 0 d, max 0 c)

/-- Fractional interval counts of the km_scripts builder, one pair per
point: interval pairs for consecutive points, and the final interval
`(0, n_risk[-1])` (all remaining patients censored at the last time). -/
def guyotFloatCounts : List AlignedPoint → List (ℚ × ℚ)
  | [] => []
  | [p] => [(0, (p.nrisk : ℚ))]
  | p :: q :: rest => guyotIntervalFloat p q :: guyotFloatCounts (q :: rest)

/-- Integer interval counts of the km_scripts builder: each interval's
fractional events and censorings are rounded independently
(`max(0, round(d))`, lines 170-171); the final interval is appended as
`(0, n_risk[-1])` unrounded. -/
def kmScriptsCounts : List AlignedPoint → List (ℤ × ℤ)
  | [] => []
  | [p] => [(0, p.nrisk)]
  | p :: q :: rest =>
    let dc := guyotIntervalFloat p q
    (max 0 (pyRound dc.1), max 0 (pyRound dc.2)) :: kmScriptsCounts (q :: rest)

/-- One interval of `IPDBuilder.reconstruct_ipd_guyot` (km_extractor,
lines 1490-1504): same recurrence but the events formula is applied
whenever `s_curr > 0`, with no `s_next < s_curr` guard. -/
def extractorIntervalFloat (p q : AlignedPoint) : ℚ × ℚ :=
  let d : ℚ :=
    if 0 < p.survival then (p.nrisk : ℚ) * (1 - q.survival / p.survival) else 0
  let c : ℚ := (p.nrisk : ℚ) - (q.nrisk : ℚ) - d
  (max 0 d, max 0 c)

/-- Fractional interval counts of the km_extractor builder, final
interval `(0, n_risk[-1])` included. -/
def extractorFloatCounts : List AlignedPoint → List (ℚ × ℚ)
  | [] => []
  | [p] => [(0, (p.nrisk : ℚ))]
  | p :: q :: rest => extractorIntervalFloat p q :: extractorFloatCounts (q :: rest)

/-- Worker for `accumRound`, carrying the accumulated event and censor
fractions. -/
def accumRoundGo (ae ac : ℚ) : List (ℚ × ℚ) → List (ℤ × ℤ)
  | [] => []
  | dc :: rest =>
    let ae2 := ae + dc.1
    let ac2 := ac + dc.2
    let di := pyInt ae2
    let ci := pyInt ac2
    (di, ci) :: accumRoundGo (ae2 - di) (ac2 - ci) rest

/-- Fractional-accumulation rounding of the km_extractor builder (lines
1523-1544): fractions are accumulated across intervals, the integer part
(`int(...)`) is emitted each time, and the remainder is carried
forward. -/
def accumRound (l : List (ℚ × ℚ)) : List (ℤ × ℤ) :=
  accumRoundGo 0 0 l

/-- Patient-record synthesis of the km_extractor builder (lines
1550-1575) on the list `zip times counts`: for every non-terminal grid
point, `n_events` records at `t + uniform(0, interval_length)` followed
by `n_censored` records exactly at `t`; at the terminal point only
censored records, exactly at `t`.  The values drawn by
`np.random.uniform` are supplied by the stream `rng`, indexed by draw
order; `k` counts the draws already consumed. -/
def synthRecords (rng : ℕ → ℚ) : ℕ → List (ℚ × ℤ × ℤ) → List PatientRecord
  | _, [] => []
  | _, [(t, _, c)] => List.replicate c.toNat ⟨t, 0⟩
  | k, (t, d, c) :: q :: rest =>
    ((List.range d.toNat).map (fun j => PatientRecord.mk (t + rng (k + j)) 1))
      ++ List.replicate c.toNat ⟨t, 0⟩
      ++ synthRecords rng (k + d.toNat) (q :: rest)

/-- Number of records with `event == 1`. -/
def countEvents (l : List PatientRecord) : ℕ :=
  (l.filter (fun r => r.event == 1)).length

/-- Number of records with `event == 0`. -/
def countCensored (l : List PatientRecord) : ℕ :=
  (l.filter (fun r => r.event == 0)).length

/-- Downsizing branch of `IPDBuilderAgent._normalize_ipd_population`
(km_scripts, lines 595-625).  `sample df k` models
`df.sample(n=k, random_state=42)`: a pseudo-random selection of `k` rows,
passed in as a parameter. -/
def downsizeS (sample : List PatientRecord → ℕ → List PatientRecord)
    (records : List PatientRecord) (target : ℕ) : List PatientRecord :=
  let eventsDf := records.filter (fun r => r.event == 1)
  let censDf := records.filter (fun r => r.event == 0)
  let excess : ℕ := records.length - target
  let eRm0 : ℤ := pyRound ((excess : ℚ) * ((eventsDf.length : ℚ) / (records.length : ℚ)))
  let cRm0 : ℤ := (excess : ℤ) - eRm0
  let eRm : ℤ := min eRm0 (eventsDf.length : ℤ)
  let cRm : ℤ := min cRm0 (censDf.length : ℤ)
  let eventsKept :=
    if 0 < eRm ∧ eventsDf.length ≠ 0
    then sample eventsDf (eventsDf.length - eRm.toNat) else eventsDf
  let censKept :=
    if 0 < cRm ∧ censDf.length ≠ 0
    then sample censDf (censDf.length - cRm.toNat) else censDf
  sortByTime (eventsKept ++ censKept)

/-- Upsizing branch of `IPDBuilderAgent._normalize_ipd_population`
(km_scripts, lines 627-647).  `resample df k` models
`df.sample(n=k, replace=True, random_state=42)` and `noise i` the i-th
`np.random.normal(0, 0.01)` draw; duplicated times are clamped to be at
least 0.001. -/
def upsizeS (resample : List PatientRecord → ℕ → List PatientRecord)
    (noise : ℕ → ℚ) (records : List PatientRecord) (target : ℕ) : List PatientRecord :=
  if records.length ≠ 0 then
    let dups := resample records (target - records.length)
    let jittered := dups.enum.map
      (fun ir => { ir.2 with time := max (ir.2.time + noise ir.1) (1/1000) })
    sortByTime (records ++ jittered)
  else records

/-- `IPDBuilderAgent._normalize_ipd_population` (the
PopulationNormalizer, km_scripts variant). -/
def normalizePopS (sample resample : List PatientRecord → ℕ → List PatientRecord)
    (noise : ℕ → ℚ) (records : List PatientRecord) (target : ℕ) : List PatientRecord :=
  if records.length = target then records
  else if target < records.length then downsizeS sample records target
  else upsizeS resample noise records target

/-- Downsizing branch of `IPDBuilder._normalize_population`
(km_extractor, lines 1664-1679); differs from km_scripts only in that
the censored removal count is computed from the already-clamped event
removal count, and the final sort happens at the common return. -/
def downsizeE (sample : List PatientRecord → ℕ → List PatientRecord)
    (records : List PatientRecord) (target : ℕ) : List PatientRecord :=
  let eventsDf := records.filter (fun r => r.event == 1)
  let censDf := records.filter (fun r => r.event == 0)
  let excess : ℕ := records.length - target
  let ratio : ℚ :=
    if 0 < records.length then (eventsDf.length : ℚ) / (records.length : ℚ) else 0
  let eRm : ℤ := min (pyRound ((excess : ℚ) * ratio)) (eventsDf.length : ℤ)
  let cRm : ℤ := min ((excess : ℤ) - eRm) (censDf.length : ℤ)
  let eventsKept :=
    if 0 < eRm ∧ eventsDf.length ≠ 0
    then sample eventsDf (eventsDf.length - eRm.toNat) else eventsDf
  let censKept :=
    if 0 < cRm ∧ censDf.length ≠ 0
    then sample censDf (censDf.length - cRm.toNat) else censDf
  eventsKept ++ censKept

/-- Upsizing branch of `IPDBuilder._normalize_population` (km_extractor,
lines 1681-1689). -/
def upsizeE (resample : List PatientRecord → ℕ → List PatientRecord)
    (noise : ℕ → ℚ) (records : List PatientRecord) (target : ℕ) : List PatientRecord :=
  if records.length ≠ 0 then
    let dups := resample records (target - records.length)
    let jittered := dups.enum.map
      (fun ir => { ir.2 with time := max (ir.2.time + noise ir.1) (1/1000) })
    records ++ jittered
  else records

/-- `IPDBuilder._normalize_population` (km_extractor): equal sizes return
the input untouched, the other branches sort by time at the return. -/
def normalizePopE (sample resample : List PatientRecord → ℕ → List PatientRecord)
    (noise : ℕ → ℚ) (records : List PatientRecord) (target : ℕ) : List PatientRecord :=
  if records.length = target then records
  else if target < records.length then sortByTime (downsizeE sample records target)
  else sortByTime (upsizeE resample noise records target)

/-- Survival rescale with fixed time: one row of
`km_df["survival"] / 100.0`. -/
def div100 (p : KMPoint) : KMPoint :=
  { p with survival := p.survival / 100 }

/-- Percentage detection of `IPDBuilder.reconstruct_ipd_guyot`
(km_extractor, lines 1414-1424): if the maximum survival exceeds 1.5 the
whole column is divided by 100, otherwise the payload is unchanged. -/
def normalizeScale (l : List KMPoint) : List KMPoint :=
  if 3/2 < listMax (l.map (fun p => p.survival)) then l.map div100 else l

/-- Worker for `filterEventTimes`: pandas `diff()` compares each row with
the previous row of the frame, kept or not. -/
def filterDiffs : KMPoint → List KMPoint → List KMPoint
  | _, [] => []
  | prev, p :: ps =>
    (if 1/1000 ≤ |p.survival - prev.survival| then [p] else []) ++ filterDiffs p ps

/-- Event-time filter of `IPDBuilder.reconstruct_ipd_guyot` (lines
1426-1434): keep the first row and every row whose survival moved by at
least 0.001 from the previous row. -/
def filterEventTimes : List KMPoint → List KMPoint
  | [] => []
  | p :: ps => p :: filterDiffs p ps

/-- `np.interp` on an ascending table: clamped at the ends, linear in
between. -/
def npInterp (t : ℚ) : List (ℚ × ℤ) → ℚ
  | [] => 0
  | [xy] => (xy.2 : ℚ)
  | (x1, y1) :: (x2, y2) :: rest =>
    if t ≤ x1 then (y1 : ℚ)
    else if t ≤ x2 then (y1 : ℚ) + ((y2 : ℚ) - (y1 : ℚ)) * (t - x1) / (x2 - x1)
    else npInterp t ((x2, y2) :: rest)

/-- One KM row of `IPDBuilder._align_atrisk_data` (km_extractor, lines
1619-1630): exact at-risk match, else `max(0, round(np.interp(...)))`. -/
def alignRowE (ar : List (ℚ × ℤ)) (p : KMPoint) : AlignedPoint :=
  match ar.find? (fun a => a.1 == p.time) with
  | some a => AlignedPoint.mk p.time p.survival a.2
  | none => AlignedPoint.mk p.time p.survival (max 0 (pyRound (npInterp p.time ar)))

/-- Survival-consistency clip of `IPDBuilder._align_atrisk_data` (lines
1637-1645): `n_risk` may not exceed `max(1, survival * initial_n * 1.2)`;
offending values are replaced by the rounded bound. -/
def clipRow (initN : ℤ) (p : AlignedPoint) : AlignedPoint :=
  let bound : ℚ := max 1 (p.survival * (initN : ℚ) * (6/5))
  if bound < (p.nrisk : ℚ) then { p with nrisk := pyRound bound } else p

/-- `IPDBuilder._align_atrisk_data` (the RiskAligner, km_extractor
variant): KM grid primary, at-risk attached by exact match or linear
interpolation, forced non-increasing, clipped against survival decay,
forced non-increasing again.  With no at-risk table, estimate
`n_risk = round(100 * survival / max_survival)`. -/
def alignAtRiskE (km : List KMPoint) (ar : List (ℚ × ℤ)) : List AlignedPoint :=
  if ar = [] then
    let maxS := listMax (km.map (fun p => p.survival))
    if 0 < maxS then
      km.map (fun p => AlignedPoint.mk p.time p.survival (pyRound (100 * p.survival / maxS)))
    else km.map (fun p => AlignedPoint.mk p.time p.survival 100)
  else
    let rows := applyRiskCummin (km.map (alignRowE ar))
    let initN := ((rows.head?).map (fun p => p.nrisk)).getD 0
    applyRiskCummin (rows.map (clipRow initN))

/-- Initial population of `IPDBuilder.reconstruct_ipd_guyot` (lines
1467-1474): at-risk value at time 0 when present, else backed out of the
first (time-sorted) aligned row as `int(n_risk / survival)`. -/
def initialN (rows : List AlignedPoint) : ℤ :=
  match rows.find? (fun p => p.time == 0) with
  | some p => p.nrisk
  | none =>
    match rows.head? with
    | some p => if 0 < p.survival then pyInt ((p.nrisk : ℚ) / p.survival) else p.nrisk
    | none => 0

/-- Body of `IPDBuilder.reconstruct_ipd_guyot` after the empty guard and
the scale normalization: filter event times (falling back to the whole
curve when fewer than 3 rows survive), align, count, round by
accumulation, synthesize, normalize the population to `initial_n`. -/
def kmExtractorBody (kmNorm : List KMPoint) (ar : List (ℚ × ℤ)) (rng : ℕ → ℚ)
    (sample resample : List PatientRecord → ℕ → List PatientRecord)
    (noise : ℕ → ℚ) : List PatientRecord :=
  let filtered := filterEventTimes kmNorm
  let kmUse := if filtered.length < 3 then kmNorm else filtered
  let aligned := alignAtRiskE kmUse ar
  let counts := accumRound (extractorFloatCounts aligned)
  let recs := synthRecords rng 0 ((aligned.map (fun p => p.time)).zip counts)
  normalizePopE sample resample noise recs (initialN aligned).toNat

/-- `IPDBuilder.reconstruct_ipd_guyot` (km_extractor, lines 1380-1592):
empty payloads fail, otherwise the KM frame is sorted, rescaled if it
looks percentage-valued, and run through the reconstruction body. -/
def kmExtractorReconstruct (km : List KMPoint) (ar : List (ℚ × ℤ)) (rng : ℕ → ℚ)
    (sample resample : List PatientRecord → ℕ → List PatientRecord)
    (noise : ℕ → ℚ) : Except String (List PatientRecord) :=
  if km = [] then Except.error ("No KM points provided")
  else Except.ok (kmExtractorBody (normalizeScale (sortByTimeK km)) (sortByFst ar)
    rng sample resample noise)

/-- Outcome of the fidelity validation: fatal failure (`ValueError` in
the source, `ReconstructionFidelityError` in the spec taxonomy),
non-fatal warning, or clean pass. -/
inductive FidelityOutcome where
  | fidelityError : FidelityOutcome
  | fidelityWarning : FidelityOutcome
  | validated : FidelityOutcome
deriving DecidableEq

/-- Warning/failure MAE thresholds of
`IPDBuilderAgent._validate_reconstruction` (lines 357-363): (0.10, 0.30)
for PFS endpoints, (0.05, 0.15) otherwise. -/
def fidelityThresholds (isPFS : Bool) : ℚ × ℚ :=
  if isPFS then (1/10, 3/10) else (1/20, 3/20)

/-- Mean absolute error between original and re-fitted survival,
evaluated at the original timepoints (`np.mean(np.abs(...))`). -/
def survivalMAE (orig recon : List ℚ) : ℚ :=
  ((orig.zip recon).map (fun ab => |ab.1 - ab.2|)).sum / (orig.length : ℚ)

/-- Threshold logic of `IPDBuilderAgent._validate_reconstruction` (lines
365-373) given the original curve and the KM re-fit of the synthetic
records (the re-fit itself is produced by the external lifelines
library).  MAE above failure raises, above warning only warns. -/
def validateReconstructionMAE (isPFS : Bool) (orig recon : List ℚ) : FidelityOutcome :=
  let mae := survivalMAE orig recon
  if (fidelityThresholds isPFS).2 < mae then FidelityOutcome.fidelityError
  else if (fidelityThresholds isPFS).1 < mae then FidelityOutcome.fidelityWarning
  else FidelityOutcome.validated

/-- `IPDBuilderAgent._validate_ipd_integrity` (lines 525-574): raises on
an empty frame, on `events + censored != total`, on an event value
outside {0, 1}, and on a negative time; check 4 only logs. -/
def validateIpdIntegrity (records : List PatientRecord) : Except String Unit :=
  if records.length = 0 then Except.error ("IPD is empty")
  else if ((records.length : ℤ) ≠ (records.map (fun r => r.event)).sum
      + ((records.filter (fun r => r.event == 0)).length : ℤ)) then
    Except.error ("total differs from events plus censored")
  else if records.any (fun r => !(r.event == 0 || r.event == 1)) then
    Except.error ("invalid event values")
  else if records.any (fun r => decide (r.time < 0)) then
    Except.error ("negative time values")
  else Except.ok ()

/-- The integrity-violation disjunction exactly as the specification
states it: `events + censored != total`, an event value outside {0, 1},
or a negative time.  This is a spec-side definition, used to compare the
code's behaviour against the claimed one. -/
def specIntegrityViolation (records : List PatientRecord) : Bool :=
  (decide ((records.length : ℤ) ≠ (records.map (fun r => r.event)).sum
    + ((records.filter (fun r => r.event == 0)).length : ℤ)))
  || records.any (fun r => !(r.event == 0 || r.event == 1))
  || records.any (fun r => decide (r.time < 0))

/-- Spec-side event count of one Guyot interval, exactly as claimed:
`d_i = N_i * (1 - S_next / S_i)` when `S_i > 0` and `S_next < S_i`,
else 0. -/
def specEventCount (s sNext : ℚ) (n : ℤ) : ℚ :=
  if 0 < s ∧ sNext < s then (n : ℚ) * (1 - sNext / s) else 0

/-- Spec-side censored count of one Guyot interval, exactly as claimed:
`c_i = N_i - N_next - d_i`, clamped to be non-negative. -/
def specCensorCount (s sNext : ℚ) (n nNext : ℤ) : ℚ :=
  max 0 ((n : ℚ) - (nNext : ℚ) - specEventCount s sNext n)

/-- Spec-side fractional interval counts: the claimed formulas on every
consecutive pair, and the whole remaining at-risk population censored
with zero events in the final interval. -/
def specFloatCounts : List AlignedPoint → List (ℚ × ℚ)
  | [] => []
  | [p] => [(0, (p.nrisk : ℚ))]
  | p :: q :: rest =>
    (specEventCount p.survival q.survival p.nrisk,
      specCensorCount p.survival q.survival p.nrisk q.nrisk) :: specFloatCounts (q :: rest)

/-- Deterministic stand-in for `df.sample(n=k, random_state=42)`: keep
the first `k` rows.  Used only to instantiate witnesses. -/
def takeSample (l : List PatientRecord) (k : ℕ) : List PatientRecord :=
  l.take k

/-- Deterministic stand-in for
`df.sample(n=k, replace=True, random_state=42)`: `k` copies of the first
row.  Used only to instantiate witnesses. -/
def takeResample (l : List PatientRecord) (k : ℕ) : List PatientRecord :=
  match l with
  | [] => []
  | x :: _ => List.replicate k x

/-- Aligned series with three constant-at-risk points whose survival
drops by a factor 24/25 per interval: every interval has 0.4 expected
events. -/
def cexSeries : List AlignedPoint :=
  [⟨0, 1, 10⟩, ⟨1, 24/25, 10⟩, ⟨2, 576/625, 10⟩, ⟨3, 13824/15625, 10⟩]

/-- Concrete KM payload: survival 1 at time 0, 3/4 at time 6. -/
def c8km : List KMPoint :=
  [⟨0, 1⟩, ⟨6, 3/4⟩]

/-- Concrete at-risk payload matching `c8km`: 4 patients at time 0, 2 at
time 6. -/
def c8ar : List (ℚ × ℤ) :=
  [(0, 4), (6, 2)]

theorem pyRound_le (q : ℚ) : (pyRound q : ℚ) ≤ q + 1/2 := by
  have hfl : ((⌊q⌋ : ℤ) : ℚ) ≤ q := Int.floor_le q
  have hfu : q < ((⌊q⌋ : ℤ) : ℚ) + 1 := Int.lt_floor_add_one q
  simp only [pyRound]
  split_ifs <;> push_cast <;> linarith

theorem le_pyRound (q : ℚ) : q - 1/2 ≤ (pyRound q : ℚ) := by
  have hfl : ((⌊q⌋ : ℤ) : ℚ) ≤ q := Int.floor_le q
  have hfu : q < ((⌊q⌋ : ℤ) : ℚ) + 1 := Int.lt_floor_add_one q
  simp only [pyRound]
  split_ifs <;> push_cast <;> linarith

theorem pyRound_floor_le (q : ℚ) : ⌊q⌋ ≤ pyRound q := by
  simp only [pyRound]
  split_ifs <;> omega

theorem pyRound_le_floor_add_one (q : ℚ) : pyRound q ≤ ⌊q⌋ + 1 := by
  simp only [pyRound]
  split_ifs <;> omega

theorem pyRound_nonneg {q : ℚ} (h : 0 ≤ q) : 0 ≤ pyRound q :=
  le_trans (Int.floor_nonneg.mpr h) (pyRound_floor_le q)

theorem pyRound_mono {x y : ℚ} (h : x ≤ y) : pyRound x ≤ pyRound y := by
  have hf : ⌊x⌋ ≤ ⌊y⌋ := Int.floor_le_floor h
  rcases eq_or_lt_of_le hf with heq | hlt
  · have hxy : x - ((⌊x⌋ : ℤ) : ℚ) ≤ y - ((⌊y⌋ : ℤ) : ℚ) := by
      rw [← heq]; linarith
    simp only [pyRound, ← heq]
    split_ifs <;> first | omega | linarith
  · have h1 : pyRound x ≤ ⌊x⌋ + 1 := pyRound_le_floor_add_one x
    have h2 : ⌊y⌋ ≤ pyRound y := pyRound_floor_le y
    omega

theorem pyInt_eq_floor {q : ℚ} (h : 0 ≤ q) : pyInt q = ⌊q⌋ :=
  if_pos h

theorem cumminAux_length [LinearOrder α] (l : List α) :
    ∀ m : α, (cumminAux m l).length = l.length := by
  induction l with
  | nil => intro m; rfl
  | cons x xs ih => intro m; simp [cumminAux, ih]

theorem cummin_length [LinearOrder α] (l : List α) : (cummin l).length = l.length := by
  cases l with
  | nil => rfl
  | cons x xs => simp [cummin, cumminAux_length]

theorem chain_ge_cumminAux [LinearOrder α] (l : List α) :
    ∀ m : α, List.Chain' (fun a b => b ≤ a) (m :: cumminAux m l) := by
  induction l with
  | nil => intro m; simp [cumminAux]
  | cons x xs ih =>
    intro m
    simp only [cumminAux]
    exact List.chain'_cons.mpr ⟨min_le_left m x, ih (min m x)⟩

theorem chain_ge_cummin [LinearOrder α] (l : List α) :
    List.Chain' (fun a b => b ≤ a) (cummin l) := by
  cases l with
  | nil => simp [cummin]
  | cons x xs => exact chain_ge_cumminAux xs x

theorem applyRiskCummin_nrisk (rows : List AlignedPoint) :
    (applyRiskCummin rows).map (fun p => p.nrisk)
      = cummin (rows.map (fun p => p.nrisk)) := by
  unfold applyRiskCummin
  rw [List.map_map]
  have hlen : (cummin (rows.map (fun p => p.nrisk))).length ≤ rows.length := by
    rw [cummin_length, List.length_map]
  exact List.map_snd_zip rows (cummin (rows.map (fun p => p.nrisk))) hlen

theorem perturbDuplicates_surv (l : List KMPoint) :
    (perturbDuplicates l).map (fun p => p.survival) = l.map (fun p => p.survival) := by
  unfold perturbDuplicates
  rw [List.map_map]
  have hfun : ((fun p : KMPoint => p.survival) ∘ (fun ip : ℕ × KMPoint =>
      if 0 < ip.1 ∧ (l.get? (ip.1 - 1)).map (fun q => q.time) = some ip.2.time
      then { ip.2 with time := ip.2.time + (1/1000) * (ip.1 : ℚ) } else ip.2))
      = (fun p : KMPoint => p.survival) ∘ Prod.snd := by
    funext ip
    simp only [Function.comp]
    split_ifs <;> rfl
  rw [hfun, ← List.map_map, List.enum_map_snd]

theorem le_foldl_max (l : List ℚ) : ∀ a : ℚ, a ≤ l.foldl max a := by
  induction l with
  | nil => intro a; exact le_refl a
  | cons x xs ih => intro a; exact le_trans (le_max_left a x) (ih (max a x))

theorem mem_le_foldl_max (l : List ℚ) : ∀ a b : ℚ, b ∈ l → b ≤ l.foldl max a := by
  induction l with
  | nil => intro a b hb; simp at hb
  | cons x xs ih =>
    intro a b hb
    rcases List.mem_cons.mp hb with h | h
    · subst h; exact le_trans (le_max_right a b) (le_foldl_max xs (max a b))
    · exact ih (max a x) b h

theorem foldl_max_mem (l : List ℚ) : ∀ a : ℚ, l.foldl max a = a ∨ l.foldl max a ∈ l := by
  induction l with
  | nil => intro a; left; rfl
  | cons x xs ih =>
    intro a
    rcases ih (max a x) with h | h
    · rcases max_choice a x with hc | hc
      · left; rw [List.foldl_cons, h, hc]
      · right; rw [List.foldl_cons, h, hc]; exact List.mem_cons_self x xs
    · right; rw [List.foldl_cons]; exact List.mem_cons_of_mem x h

theorem listMax_mem (l : List ℚ) (h : l ≠ []) : listMax l ∈ l := by
  cases l with
  | nil => exact absurd rfl h
  | cons x xs =>
    rcases foldl_max_mem xs x with h1 | h1
    · rw [listMax, h1]; exact List.mem_cons_self x xs
    · rw [listMax]; exact List.mem_cons_of_mem x h1

theorem le_listMax {l : List ℚ} {a : ℚ} (h : a ∈ l) : a ≤ listMax l := by
  cases l with
  | nil => simp at h
  | cons x xs =>
    rcases List.mem_cons.mp h with h1 | h1
    · subst h1; exact le_foldl_max xs a
    · exact mem_le_foldl_max xs x a h1

theorem listMax_perm {l m : List ℚ} (h : l.Perm m) : listMax l = listMax m := by
  cases l with
  | nil => rw [← h.nil_eq]
  | cons x xs =>
    have hm : m ≠ [] := by
      intro he
      subst he
      exact List.cons_ne_nil x xs h.eq_nil
    have h1 : listMax (x :: xs) ∈ m := h.mem_iff.mp (listMax_mem _ (List.cons_ne_nil x xs))
    have h2 : listMax m ∈ x :: xs := h.mem_iff.mpr (listMax_mem m hm)
    exact le_antisymm (le_listMax h1) (le_listMax h2)

theorem getLast?_cons_ne_nil {α : Type} (a : α) {l : List α} (h : l ≠ []) :
    (a :: l).getLast? = l.getLast? := by
  cases l with
  | nil => exact absurd rfl h
  | cons b bs => exact List.getLast?_cons_cons

theorem guyotFloatCounts_ne_nil (p : AlignedPoint) (rest : List AlignedPoint) :
    guyotFloatCounts (p :: rest) ≠ [] := by
  cases rest <;> simp [guyotFloatCounts]

theorem partition01 (l : List PatientRecord) (h : ∀ r ∈ l, r.event = 0 ∨ r.event = 1) :
    (l.filter (fun r => r.event == 1)).length
      + (l.filter (fun r => r.event == 0)).length = l.length := by
  induction l with
  | nil => rfl
  | cons r rs ih =>
    have hrest := ih (fun x hx => h x (List.mem_cons_of_mem r hx))
    rcases h r (List.mem_cons_self r rs) with h0 | h1
    · simp only [List.filter_cons, h0]
      norm_num
      omega
    · simp only [List.filter_cons, h1]
      norm_num
      omega

theorem guyotInterval_eq_spec (p q : AlignedPoint) (h : 0 ≤ p.nrisk) :
    guyotIntervalFloat p q
      = (specEventCount p.survival q.survival p.nrisk,
          specCensorCount p.survival q.survival p.nrisk q.nrisk) := by
  by_cases hc : 0 < p.survival ∧ q.survival < p.survival
  · have hd : (0 : ℚ) ≤ (p.nrisk : ℚ) * (1 - q.survival / p.survival) := by
      apply mul_nonneg
      · exact_mod_cast h
      · have hlt : q.survival / p.survival < 1 := (div_lt_one hc.1).mpr hc.2
        linarith
    simp only [guyotIntervalFloat, specEventCount, specCensorCount, if_pos hc]
    rw [max_eq_right hd]
  · simp only [guyotIntervalFloat, specEventCount, specCensorCount, if_neg hc]
    norm_num

theorem guyotFloatCounts_eq_spec : ∀ pts : List AlignedPoint,
    (∀ p ∈ pts, 0 ≤ p.nrisk) → guyotFloatCounts pts = specFloatCounts pts := by
  intro pts
  induction pts with
  | nil => intro _; rfl
  | cons p rest ih =>
    intro h
    cases rest with
    | nil => rfl
    | cons q rest2 =>
      have hp : 0 ≤ p.nrisk := h p (List.mem_cons_self p _)
      have h2 : ∀ x ∈ q :: rest2, 0 ≤ x.nrisk :=
        fun x hx => h x (List.mem_cons_of_mem p hx)
      show guyotIntervalFloat p q :: guyotFloatCounts (q :: rest2)
        = (specEventCount p.survival q.survival p.nrisk,
            specCensorCount p.survival q.survival p.nrisk q.nrisk)
          :: specFloatCounts (q :: rest2)
      rw [guyotInterval_eq_spec p q hp, ih h2]

theorem guyotFloatCounts_getLast : ∀ pts : List AlignedPoint, ∀ p : AlignedPoint,
    pts.getLast? = some p →
    (guyotFloatCounts pts).getLast? = some (0, (p.nrisk : ℚ)) := by
  intro pts
  induction pts with
  | nil => intro p hp; simp at hp
  | cons x rest ih =>
    intro p hp
    cases rest with
    | nil =>
      have hx : x = p := by simpa using hp
      subst hx
      rfl
    | cons q rest2 =>
      have hp2 : (q :: rest2).getLast? = some p := by
        rwa [getLast?_cons_ne_nil x (List.cons_ne_nil q rest2)] at hp
      show (guyotIntervalFloat x q :: guyotFloatCounts (q :: rest2)).getLast?
        = some (0, (p.nrisk : ℚ))
      rw [getLast?_cons_ne_nil _ (guyotFloatCounts_ne_nil q rest2)]
      exact ih p hp2

theorem mapSurvUpdate (l : List KMPoint) (m : List ℚ) (hlen : m.length ≤ l.length) :
    ((l.zip m).map (fun pm => ({ pm.1 with survival := pm.2 } : KMPoint))).map
      (fun p => p.survival) = m := by
  rw [List.map_map]
  exact List.map_snd_zip l m hlen

theorem cleanKMData_surv_chain (isPFS : Bool) (pts : List KMPoint) :
    List.Chain' (fun a b => b ≤ a) ((cleanKMData isPFS pts).map (fun p => p.survival)) := by
  by_cases hp : pts = []
  · simp [cleanKMData, hp]
  · simp only [cleanKMData, if_neg hp]
    rw [perturbDuplicates_surv, mapSurvUpdate _ _ (by rw [cummin_length, List.length_map])]
    exact chain_ge_cummin _

theorem align_risk_chain (km : List KMPoint) (ar : List (ℚ × ℤ))
    (hs : List.Chain' (fun a b => b ≤ a) (km.map (fun p => p.survival))) :
    List.Chain' (fun a b => b ≤ a) ((alignAtRiskS km ar).map (fun p => p.nrisk)) := by
  by_cases ha : ar = []
  · simp only [alignAtRiskS, if_pos ha]
    rw [List.map_map]
    rw [List.chain'_map] at hs ⊢
    refine hs.imp ?_
    intro a b hab
    exact pyRound_mono (by linarith)
  · simp only [alignAtRiskS, if_neg ha]
    rw [applyRiskCummin_nrisk]
    exact chain_ge_cummin _

/-- C6: the CurveNormalizer's output survival sequence is non-increasing
for every input, and the RiskAligner's output n_at_risk sequence is
non-increasing for every at-risk table and every KM input whose survival
column is non-increasing (the invariant the normalizer establishes; with
a non-empty at-risk table no hypothesis is even needed). -/
theorem curve_and_risk_monotonicity :
    (∀ (isPFS : Bool) (pts : List KMPoint),
      List.Chain' (fun a b => b ≤ a) ((cleanKMData isPFS pts).map (fun p => p.survival))) ∧
    (∀ (km : List KMPoint) (ar : List (ℚ × ℤ)),
      List.Chain' (fun a b => b ≤ a) (km.map (fun p => p.survival)) →
      List.Chain' (fun a b => b ≤ a) ((alignAtRiskS km ar).map (fun p => p.nrisk))) :=
  ⟨cleanKMData_surv_chain, align_risk_chain⟩

theorem monotonicity_witness :
    List.Chain' (fun a b => b ≤ a)
      ((alignAtRiskS [⟨0, 1⟩, ⟨6, 4/5⟩] []).map (fun p => p.nrisk)) :=
  curve_and_risk_monotonicity.2 [⟨0, 1⟩, ⟨6, 4/5⟩] [] (by
    simp only [List.map_cons, List.map_nil]
    exact List.chain'_cons.mpr ⟨by norm_num, List.chain'_singleton _⟩)

theorem find?_arRow_cons (x : ℚ × ℤ) (rest : List (ℚ × ℤ)) (t : ℚ) :
    List.find? (fun a => a.1 == t) (x :: rest)
      = if x.1 = t then some x else List.find? (fun a => a.1 == t) rest := by
  by_cases h : x.1 = t
  · simp [List.find?, h]
  · simp [List.find?, h, beq_eq_false_iff_ne.mpr h]

theorem find?_time0_cons (p : AlignedPoint) (rest : List AlignedPoint) :
    List.find? (fun p : AlignedPoint => p.time == 0) (p :: rest)
      = if p.time = 0 then some p
        else List.find? (fun p : AlignedPoint => p.time == 0) rest := by
  by_cases h : p.time = 0
  · simp [List.find?, h]
  · simp [List.find?, h, beq_eq_false_iff_ne.mpr h]

theorem c8_reconstruct_eval (rng : ℕ → ℚ) :
    kmExtractorReconstruct c8km c8ar rng takeSample takeResample (fun _ => 0)
      = Except.ok [⟨0 + rng 0, 1⟩, ⟨0, 0⟩, ⟨6, 0⟩, ⟨6, 0⟩] := by
  have h1 : sortByTimeK c8km = [⟨0, 1⟩, ⟨6, 3/4⟩] := by
    norm_num [c8km, sortByTimeK, List.insertionSort, List.orderedInsert]
  have h2 : normalizeScale [⟨0, 1⟩, ⟨6, 3/4⟩] = [⟨0, 1⟩, ⟨6, 3/4⟩] := by
    norm_num [normalizeScale, listMax]
  have h3 : filterEventTimes [⟨0, 1⟩, ⟨6, 3/4⟩] = [⟨0, 1⟩, ⟨6, 3/4⟩] := by
    norm_num [filterEventTimes, filterDiffs, abs_of_nonneg, abs_of_nonpos]
  have h4 : sortByFst c8ar = [(0, 4), (6, 2)] := by
    norm_num [c8ar, sortByFst, List.insertionSort, List.orderedInsert]
  have h5 : alignAtRiskE [⟨0, 1⟩, ⟨6, 3/4⟩] [(0, 4), (6, 2)] = [⟨0, 1, 4⟩, ⟨6, 3/4, 2⟩] := by
    simp only [alignAtRiskE]
    rw [if_neg (by simp)]
    norm_num [alignRowE, find?_arRow_cons, applyRiskCummin, cummin, cumminAux, clipRow]
  have h6 : initialN [⟨0, 1, 4⟩, ⟨6, 3/4, 2⟩] = 4 := by
    norm_num [initialN, find?_time0_cons]
  have h7 : extractorFloatCounts [⟨0, 1, 4⟩, ⟨6, 3/4, 2⟩] = [(1, 1), (0, 2)] := by
    norm_num [extractorFloatCounts, extractorIntervalFloat]
  have h8 : accumRound [((1:ℚ), (1:ℚ)), (0, 2)] = [(1, 1), (0, 2)] := by
    norm_num [accumRound, accumRoundGo, pyInt]
  have h9 : synthRecords rng 0 [((0:ℚ), (1:ℤ), (1:ℤ)), (6, 0, 2)]
      = [⟨0 + rng 0, 1⟩, ⟨0, 0⟩, ⟨6, 0⟩, ⟨6, 0⟩] := by
    norm_num [synthRecords, List.range_succ, List.range_zero, List.replicate]
  have hbody : kmExtractorBody [⟨0, 1⟩, ⟨6, 3/4⟩] [(0, 4), (6, 2)] rng
      takeSample takeResample (fun _ => 0) = [⟨0 + rng 0, 1⟩, ⟨0, 0⟩, ⟨6, 0⟩, ⟨6, 0⟩] := by
    simp only [kmExtractorBody, h3, List.length_cons, List.length_nil]
    rw [if_pos (by norm_num)]
    rw [h5, h6, h7, h8]
    simp only [List.map_cons, List.map_nil, List.zip_cons_cons, List.zip_nil_right]
    rw [h9]
    have hlen : ([⟨0 + rng 0, 1⟩, ⟨0, 0⟩, ⟨6, 0⟩, ⟨6, 0⟩] : List PatientRecord).length
        = (4:ℤ).toNat := by simp
    simp only [normalizePopE]
    rw [if_pos hlen]
  simp only [kmExtractorReconstruct]
  rw [if_neg (by simp [c8km]), h1, h2, h4, hbody]

/-- C7 (code bug): reconstruction is not reproducible.  The event-time
jitter comes from unseeded `np.random.uniform` draws, so two runs of the
full service-layer pipeline on the identical KM and at-risk payload
(`c8km`, `c8ar`) with two equally legitimate draw streams produce
different patient records. -/
theorem unseeded_jitter_breaks_reproducibility :
    kmExtractorReconstruct c8km c8ar (fun _ => 0) takeSample takeResample (fun _ => 0)
        = Except.ok [⟨0, 1⟩, ⟨0, 0⟩, ⟨6, 0⟩, ⟨6, 0⟩] ∧
    kmExtractorReconstruct c8km c8ar (fun _ => 1) takeSample takeResample (fun _ => 0)
        = Except.ok [⟨1, 1⟩, ⟨0, 0⟩, ⟨6, 0⟩, ⟨6, 0⟩] ∧
    ([⟨0, 1⟩, ⟨0, 0⟩, ⟨6, 0⟩, ⟨6, 0⟩] : List PatientRecord)
      ≠ [⟨1, 1⟩, ⟨0, 0⟩, ⟨6, 0⟩, ⟨6, 0⟩] := by
  refine ⟨?_, ?_, ?_⟩
  · rw [c8_reconstruct_eval (fun _ => 0)]
    norm_num
  · rw [c8_reconstruct_eval (fun _ => 1)]
    norm_num
  · norm_num

/-- C8 counterexample: the final reconstructed output of the
service-layer pipeline on `c8km`/`c8ar` contains the censored record of
the first interval placed exactly at time 0, so `time > 0` fails. -/
theorem censored_record_at_time_zero :
    kmExtractorReconstruct c8km c8ar (fun _ => 0) takeSample takeResample (fun _ => 0)
        = Except.ok [⟨0, 1⟩, ⟨0, 0⟩, ⟨6, 0⟩, ⟨6, 0⟩] ∧
    (⟨0, 0⟩ : PatientRecord) ∈ ([⟨0, 1⟩, ⟨0, 0⟩, ⟨6, 0⟩, ⟨6, 0⟩] : List PatientRecord) ∧
    ¬ (0 < (⟨0, 0⟩ : PatientRecord).time) := by
  refine ⟨?_, ?_, ?_⟩
  · rw [c8_reconstruct_eval (fun _ => 0)]
    norm_num
  · exact List.mem_cons_of_mem _ (List.mem_cons_self _ _)
  · norm_num

/-- C9: a request with an empty KM point list fails (the km_extractor
entry guard returns the failure result before any reconstruction step,
matching the `EmptyCurveError` of the spec taxonomy; the km_scripts
builder raises a `ValueError` at the same guard) and produces no
patient records. -/
theorem empty_curve_reconstruction_fails (ar : List (ℚ × ℤ)) (rng : ℕ → ℚ)
    (sample resample : List PatientRecord → ℕ → List PatientRecord) (noise : ℕ → ℚ) :
    kmExtractorReconstruct [] ar rng sample resample noise
        = Except.error ("No KM points provided") ∧
    ∀ recs : List PatientRecord,
      kmExtractorReconstruct [] ar rng sample resample noise ≠ Except.ok recs := by
  constructor
  · rfl
  · intro recs h
    rw [show kmExtractorReconstruct [] ar rng sample resample noise
        = Except.error ("No KM points provided") from rfl] at h
    exact Except.noConfusion h

/-- C2 counterexample: on `cexSeries` the km_scripts builder rounds each
interval independently (`round(0.4) = 0` three times) and emits 0 events
in total, while the fractional counts sum to 6/5.  The emitted total
misses the expected total implied by the survival drop by 6/5, not by
less than 1, and differs from the accumulate-and-carry integerization. -/
theorem per_interval_rounding_drops_events :
    ((kmScriptsCounts cexSeries).map (fun x => x.1)).sum = 0 ∧
    ((guyotFloatCounts cexSeries).map (fun x => x.1)).sum = 6/5 ∧
    ¬ (|((((kmScriptsCounts cexSeries).map (fun x => x.1)).sum : ℤ) : ℚ)
        - ((guyotFloatCounts cexSeries).map (fun x => x.1)).sum| < 1) ∧
    kmScriptsCounts cexSeries ≠ accumRound (guyotFloatCounts cexSeries) := by
  have hg : guyotFloatCounts cexSeries = [(2/5, 0), (2/5, 0), (2/5, 0), (0, 10)] := by
    norm_num [cexSeries, guyotFloatCounts, guyotIntervalFloat]
  have hk : kmScriptsCounts cexSeries = [(0, 0), (0, 0), (0, 0), (0, 10)] := by
    norm_num [cexSeries, kmScriptsCounts, guyotIntervalFloat, pyRound]
  have ha : accumRound [((2:ℚ)/5, (0:ℚ)), (2/5, 0), (2/5, 0), (0, 10)]
      = [(0, 0), (0, 0), (1, 0), (0, 10)] := by
    norm_num [accumRound, accumRoundGo, pyInt]
  refine ⟨?_, ?_, ?_, ?_⟩
  · rw [hk]; norm_num
  · rw [hg]; norm_num
  · rw [hk, hg]; norm_num [abs_of_nonneg, abs_of_nonpos]
  · rw [hk, hg, ha]; decide

theorem accumRoundGo_sums : ∀ (l : List (ℚ × ℚ)) (ae ac : ℚ),
    (∀ x ∈ l, 0 ≤ x.1 ∧ 0 ≤ x.2) → 0 ≤ ae → ae < 1 → 0 ≤ ac → ac < 1 →
    ∃ re rc : ℚ, 0 ≤ re ∧ re < 1 ∧ 0 ≤ rc ∧ rc < 1 ∧
      (((accumRoundGo ae ac l).map (fun x => x.1)).sum : ℚ) + re
        = ae + (l.map (fun x => x.1)).sum ∧
      (((accumRoundGo ae ac l).map (fun x => x.2)).sum : ℚ) + rc
        = ac + (l.map (fun x => x.2)).sum := by
  intro l
  induction l with
  | nil =>
    intro ae ac _ h1 h2 h3 h4
    exact ⟨ae, ac, h1, h2, h3, h4, by simp [accumRoundGo], by simp [accumRoundGo]⟩
  | cons dc rest ih =>
    intro ae ac hx h1 h2 h3 h4
    have hd : 0 ≤ dc.1 := (hx dc (List.mem_cons_self _ _)).1
    have hc : 0 ≤ dc.2 := (hx dc (List.mem_cons_self _ _)).2
    have hae2 : 0 ≤ ae + dc.1 := by linarith
    have hac2 : 0 ≤ ac + dc.2 := by linarith
    have hdi : pyInt (ae + dc.1) = ⌊ae + dc.1⌋ := pyInt_eq_floor hae2
    have hci : pyInt (ac + dc.2) = ⌊ac + dc.2⌋ := pyInt_eq_floor hac2
    have hfl1 : ((⌊ae + dc.1⌋ : ℤ) : ℚ) ≤ ae + dc.1 := Int.floor_le _
    have hfu1 : ae + dc.1 < ((⌊ae + dc.1⌋ : ℤ) : ℚ) + 1 := Int.lt_floor_add_one _
    have hfl2 : ((⌊ac + dc.2⌋ : ℤ) : ℚ) ≤ ac + dc.2 := Int.floor_le _
    have hfu2 : ac + dc.2 < ((⌊ac + dc.2⌋ : ℤ) : ℚ) + 1 := Int.lt_floor_add_one _
    obtain ⟨re, rc, p1, p2, p3, p4, p5, p6⟩ :=
      ih ((ae + dc.1) - (⌊ae + dc.1⌋ : ℤ)) ((ac + dc.2) - (⌊ac + dc.2⌋ : ℤ))
        (fun x hx2 => hx x (List.mem_cons_of_mem _ hx2))
        (by linarith) (by linarith) (by linarith) (by linarith)
    refine ⟨re, rc, p1, p2, p3, p4, ?_, ?_⟩
    · simp only [accumRoundGo, hdi, hci, List.map_cons, List.sum_cons]
      linarith
    · simp only [accumRoundGo, hdi, hci, List.map_cons, List.sum_cons]
      linarith

theorem extractorFloatCounts_nonneg : ∀ pts : List AlignedPoint,
    (∀ p ∈ pts, 0 ≤ p.nrisk) → ∀ x ∈ extractorFloatCounts pts, 0 ≤ x.1 ∧ 0 ≤ x.2 := by
  intro pts
  induction pts with
  | nil =>
    intro _ x hx
    simp [extractorFloatCounts] at hx
  | cons p rest ih =>
    intro h x hx
    cases rest with
    | nil =>
      have hx2 : x = (0, (p.nrisk : ℚ)) := by simpa [extractorFloatCounts] using hx
      subst hx2
      refine ⟨le_refl 0, ?_⟩
      show (0 : ℚ) ≤ ((p.nrisk : ℤ) : ℚ)
      exact_mod_cast h p (List.mem_cons_self p _)
    | cons q rest2 =>
      rw [show extractorFloatCounts (p :: q :: rest2)
          = extractorIntervalFloat p q :: extractorFloatCounts (q :: rest2) from rfl] at hx
      rcases List.mem_cons.mp hx with h1 | h1
      · subst h1
        exact ⟨le_max_left 0 _, le_max_left 0 _⟩
      · exact ih (fun r hr => h r (List.mem_cons_of_mem p hr)) x h1

/-- C2 amended: the service-layer estimator (km_extractor) accumulates
fractional event and censor counts across intervals, emitting the
integer part as the running total crosses each whole number and carrying
the remainder, so its emitted integer totals differ from the fractional
totals by less than 1; the km_scripts agent instead rounds each interval
independently (see the counterexample). -/
theorem accumulated_rounding_preserves_totals (pts : List AlignedPoint)
    (h : ∀ p ∈ pts, 0 ≤ p.nrisk) :
    |(((accumRound (extractorFloatCounts pts)).map (fun x => x.1)).sum : ℚ)
        - ((extractorFloatCounts pts).map (fun x => x.1)).sum| < 1 ∧
    |(((accumRound (extractorFloatCounts pts)).map (fun x => x.2)).sum : ℚ)
        - ((extractorFloatCounts pts).map (fun x => x.2)).sum| < 1 := by
  obtain ⟨re, rc, p1, p2, p3, p4, p5, p6⟩ :=
    accumRoundGo_sums (extractorFloatCounts pts) 0 0
      (extractorFloatCounts_nonneg pts h) (le_refl 0) (by norm_num) (le_refl 0) (by norm_num)
  constructor
  · have he : (((accumRound (extractorFloatCounts pts)).map (fun x => x.1)).sum : ℚ)
        - ((extractorFloatCounts pts).map (fun x => x.1)).sum = -re := by
      rw [accumRound]
      linarith
    rw [he, abs_neg, abs_of_nonneg p1]
    exact p2
  · have he : (((accumRound (extractorFloatCounts pts)).map (fun x => x.2)).sum : ℚ)
        - ((extractorFloatCounts pts).map (fun x => x.2)).sum = -rc := by
      rw [accumRound]
      linarith
    rw [he, abs_neg, abs_of_nonneg p3]
    exact p4

theorem accumulated_rounding_witness :
    |(((accumRound (extractorFloatCounts cexSeries)).map (fun x => x.1)).sum : ℚ)
        - ((extractorFloatCounts cexSeries).map (fun x => x.1)).sum| < 1 ∧
    |(((accumRound (extractorFloatCounts cexSeries)).map (fun x => x.2)).sum : ℚ)
        - ((extractorFloatCounts cexSeries).map (fun x => x.2)).sum| < 1 :=
  accumulated_rounding_preserves_totals cexSeries (by decide)

/-- C4: the validator's thresholds are asymmetric by endpoint class
(0.10/0.30 for the noisier PFS curves, 0.05/0.15 otherwise) and for
every validated reconstruction an MAE above the failure threshold raises
the fidelity error, while an MAE above the warning threshold but at or
below the failure threshold only warns and does not raise. -/
theorem fidelity_thresholds_asymmetric (isPFS : Bool) (orig recon : List ℚ) :
    fidelityThresholds true = (1/10, 3/10) ∧
    fidelityThresholds false = (1/20, 3/20) ∧
    ((fidelityThresholds false).1 < (fidelityThresholds true).1
      ∧ (fidelityThresholds false).2 < (fidelityThresholds true).2) ∧
    ((fidelityThresholds isPFS).2 < survivalMAE orig recon →
      validateReconstructionMAE isPFS orig recon = FidelityOutcome.fidelityError) ∧
    ((fidelityThresholds isPFS).1 < survivalMAE orig recon →
      survivalMAE orig recon ≤ (fidelityThresholds isPFS).2 →
      validateReconstructionMAE isPFS orig recon = FidelityOutcome.fidelityWarning) ∧
    (validateReconstructionMAE isPFS orig recon = FidelityOutcome.fidelityError →
      (fidelityThresholds isPFS).2 < survivalMAE orig recon) := by
  refine ⟨rfl, rfl, by norm_num [fidelityThresholds], ?_, ?_, ?_⟩
  · intro h
    simp only [validateReconstructionMAE, if_pos h]
  · intro h1 h2
    simp only [validateReconstructionMAE, if_neg (not_lt.mpr h2), if_pos h1]
  · intro h
    by_contra hc
    simp only [validateReconstructionMAE, if_neg hc] at h
    by_cases h2 : (fidelityThresholds isPFS).1 < survivalMAE orig recon
    · rw [if_pos h2] at h
      exact FidelityOutcome.noConfusion h
    · rw [if_neg h2] at h
      exact FidelityOutcome.noConfusion h

theorem fidelity_thresholds_witness :
    validateReconstructionMAE true [1, 0] [1, 1/2] = FidelityOutcome.fidelityWarning :=
  (fidelity_thresholds_asymmetric true [1, 0] [1, 1/2]).2.2.2.2.1
    (by norm_num [survivalMAE, fidelityThresholds, abs_of_nonneg, abs_of_nonpos])
    (by norm_num [survivalMAE, fidelityThresholds, abs_of_nonneg, abs_of_nonpos])

/-- C5 counterexample: the integrity check raises on the empty record
set although none of the three claimed violation conditions holds
there. -/
theorem integrity_raises_on_empty :
    validateIpdIntegrity [] = Except.error ("IPD is empty") ∧
    specIntegrityViolation [] = false :=
  ⟨rfl, rfl⟩

/-- C5 amended: the integrity check returns normally exactly when the
record set is non-empty and none of the claimed violations holds
(events + censored differing from the total, an event value outside
{0,1}, a negative time), and on normal return the event and censored
counts add up to the record count. -/
theorem integrity_error_iff (records : List PatientRecord) :
    (validateIpdIntegrity records = Except.ok () ↔
      (records ≠ [] ∧ specIntegrityViolation records = false)) ∧
    (validateIpdIntegrity records = Except.ok () →
      (records.map (fun r => r.event)).sum
        + ((records.filter (fun r => r.event == 0)).length : ℤ)
        = (records.length : ℤ)) := by
  constructor
  · constructor
    · intro h
      simp only [validateIpdIntegrity] at h
      split_ifs at h with h1 h2 h3 h4
      refine ⟨fun he => h1 (by simp [he]), ?_⟩
      simp only [specIntegrityViolation]
      rw [decide_eq_false h2, Bool.eq_false_iff.mpr h3, Bool.eq_false_iff.mpr h4]
      rfl
    · rintro ⟨hne, hviol⟩
      simp only [specIntegrityViolation, Bool.or_eq_false_iff] at hviol
      obtain ⟨⟨v1, v2⟩, v3⟩ := hviol
      simp only [validateIpdIntegrity]
      rw [if_neg (fun hl => hne (List.length_eq_zero.mp hl)),
        if_neg (of_decide_eq_false v1),
        if_neg (by rw [v2]; exact Bool.false_ne_true),
        if_neg (by rw [v3]; exact Bool.false_ne_true)]
  · intro h
    simp only [validateIpdIntegrity] at h
    split_ifs at h with h1 h2 h3 h4
    exact (not_ne_iff.mp h2).symm

theorem integrity_error_iff_witness :
    validateIpdIntegrity [⟨5, 1⟩, ⟨3, 0⟩] = Except.ok () ∧
    (([⟨5, 1⟩, ⟨3, 0⟩] : List PatientRecord).map (fun r => r.event)).sum
      + ((([⟨5, 1⟩, ⟨3, 0⟩] : List PatientRecord).filter (fun r => r.event == 0)).length : ℤ)
      = (([⟨5, 1⟩, ⟨3, 0⟩] : List PatientRecord).length : ℤ) :=
  ⟨rfl, (integrity_error_iff [⟨5, 1⟩, ⟨3, 0⟩]).2 rfl⟩

theorem downsizeS_spec (sample : List PatientRecord → ℕ → List PatientRecord)
    (records : List PatientRecord) (target : ℕ)
    (hev : ∀ r ∈ records, r.event = 0 ∨ r.event = 1)
    (htgt : 1 ≤ target) (hlt : target < records.length)
    (hsampleLen : ∀ (l : List PatientRecord) (k : ℕ), k ≤ l.length → (sample l k).length = k)
    (hsampleMem : ∀ (l : List PatientRecord) (k : ℕ) (r : PatientRecord),
      r ∈ sample l k → r ∈ l) :
    (downsizeS sample records target).length = target ∧
    (countEvents (downsizeS sample records target) : ℚ)
      = (countEvents records : ℚ)
        - (pyRound (((records.length - target : ℕ) : ℚ)
            * ((countEvents records : ℚ) / (records.length : ℚ))) : ℤ) := by
  simp only [downsizeS, countEvents]
  set eventsDf := records.filter (fun r => r.event == 1) with hEdf
  set censDf := records.filter (fun r => r.event == 0) with hCdf
  set n := records.length with hn
  set E := eventsDf.length with hE
  set C := censDf.length with hC
  have hEC : E + C = n := partition01 records hev
  have hn0 : 0 < n := by omega
  have hnQ : (0:ℚ) < (n : ℚ) := by exact_mod_cast hn0
  have hxcast : ((n - target : ℕ) : ℚ) = (n : ℚ) - (target : ℚ) := by
    rw [Nat.cast_sub (le_of_lt hlt)]
  have hECQ : (E : ℚ) + (C : ℚ) = (n : ℚ) := by exact_mod_cast hEC
  set x : ℚ := ((n - target : ℕ) : ℚ) * ((E : ℚ) / (n : ℚ)) with hx
  have hexn : ((n - target : ℕ) : ℚ) ≤ (n : ℚ) := by
    rw [hxcast]
    have h1 : (0:ℚ) ≤ (target : ℚ) := by positivity
    linarith
  have hexnn : (0:ℚ) ≤ ((n - target : ℕ) : ℚ) := by positivity
  have hx0 : 0 ≤ x := by
    apply mul_nonneg hexnn
    positivity
  have hxE : x ≤ (E : ℚ) := by
    have h1 : ((n - target : ℕ) : ℚ) / (n : ℚ) ≤ 1 := by
      rw [div_le_one hnQ]
      exact hexn
    calc x = (E : ℚ) * (((n - target : ℕ) : ℚ) / (n : ℚ)) := by rw [hx]; ring
    _ ≤ (E : ℚ) * 1 := by
        apply mul_le_mul_of_nonneg_left h1
        positivity
    _ = (E : ℚ) := mul_one _
  have hxEx : x ≤ ((n - target : ℕ) : ℚ) := by
    have h1 : (E : ℚ) / (n : ℚ) ≤ 1 := by
      rw [div_le_one hnQ]
      exact_mod_cast (by omega : E ≤ n)
    calc x = ((n - target : ℕ) : ℚ) * ((E : ℚ) / (n : ℚ)) := hx
    _ ≤ ((n - target : ℕ) : ℚ) * 1 := mul_le_mul_of_nonneg_left h1 hexnn
    _ = ((n - target : ℕ) : ℚ) := mul_one _
  set e : ℤ := pyRound x with he
  have he0 : 0 ≤ e := pyRound_nonneg hx0
  have heE : e ≤ (E : ℤ) := by
    have h1 := pyRound_le x
    have h2 : (e : ℚ) < (E : ℚ) + 1 := by
      rw [he]
      linarith
    have h3 : e < (E : ℤ) + 1 := by exact_mod_cast h2
    omega
  have hc0 : 0 ≤ ((n - target : ℕ) : ℤ) - e := by
    have h1 := pyRound_le x
    have h2 : (e : ℚ) < ((n - target : ℕ) : ℚ) + 1 := by
      rw [he]
      linarith
    have h3 : e < ((n - target : ℕ) : ℤ) + 1 := by exact_mod_cast h2
    omega
  have hxC : ((n - target : ℕ) : ℚ) - x ≤ (C : ℚ) := by
    have hCn : (C : ℚ) = (n : ℚ) - (E : ℚ) := by linarith
    have hrw : ((n - target : ℕ) : ℚ) - x
        = (C : ℚ) * (((n - target : ℕ) : ℚ) / (n : ℚ)) := by
      rw [hx, hCn]
      field_simp
      ring
    have h1 : ((n - target : ℕ) : ℚ) / (n : ℚ) ≤ 1 := by
      rw [div_le_one hnQ]
      exact hexn
    rw [hrw]
    calc (C : ℚ) * (((n - target : ℕ) : ℚ) / (n : ℚ)) ≤ (C : ℚ) * 1 := by
          apply mul_le_mul_of_nonneg_left h1
          positivity
    _ = (C : ℚ) := mul_one _
  have hcC : ((n - target : ℕ) : ℤ) - e ≤ (C : ℤ) := by
    have h3 := le_pyRound x
    have h4 : (((n - target : ℕ) : ℤ) : ℚ) - (e : ℚ) < (C : ℚ) + 1 := by
      push_cast
      rw [← he] at h3
      linarith
    have h5 : ((n - target : ℕ) : ℤ) - e < (C : ℤ) + 1 := by exact_mod_cast h4
    omega
  rw [min_eq_left heE, min_eq_left hcC]
  have hek : (if 0 < e ∧ E ≠ 0 then sample eventsDf (E - e.toNat) else eventsDf).length
        = E - e.toNat
      ∧ ∀ r ∈ (if 0 < e ∧ E ≠ 0 then sample eventsDf (E - e.toNat) else eventsDf),
        (r.event == 1) = true := by
    by_cases hg : 0 < e ∧ E ≠ 0
    ·
      rw [if_pos hg]
      refine ⟨hsampleLen eventsDf (E - e.toNat) (by omega), ?_⟩
      intro r hr
      exact (List.mem_filter.mp (hsampleMem _ _ _ hr)).2
    ·
      rw [if_neg hg]
      have he' : e = 0 := by
        rcases not_and_or.mp hg with hb | hb
        · omega
        · have : E = 0 := by omega
          omega
      refine ⟨by omega, ?_⟩
      intro r hr
      exact (List.mem_filter.mp hr).2
  have hck : (if 0 < ((n - target : ℕ) : ℤ) - e ∧ C ≠ 0
          then sample censDf (C - (((n - target : ℕ) : ℤ) - e).toNat) else censDf).length
        = C - (((n - target : ℕ) : ℤ) - e).toNat
      ∧ ∀ r ∈ (if 0 < ((n - target : ℕ) : ℤ) - e ∧ C ≠ 0
          then sample censDf (C - (((n - target : ℕ) : ℤ) - e).toNat) else censDf),
        (r.event == 0) = true := by
    by_cases hg : 0 < ((n - target : ℕ) : ℤ) - e ∧ C ≠ 0
    ·
      rw [if_pos hg]
      refine ⟨hsampleLen censDf _ (by omega), ?_⟩
      intro r hr
      exact (List.mem_filter.mp (hsampleMem _ _ _ hr)).2
    ·
      rw [if_neg hg]
      have he' : ((n - target : ℕ) : ℤ) - e = 0 := by
        rcases not_and_or.mp hg with hb | hb
        · omega
        · have : C = 0 := by omega
          omega
      refine ⟨by omega, ?_⟩
      intro r hr
      exact (List.mem_filter.mp hr).2
  set ek := (if 0 < e ∧ E ≠ 0 then sample eventsDf (E - e.toNat) else eventsDf) with hekdef
  set ck := (if 0 < ((n - target : ℕ) : ℤ) - e ∧ C ≠ 0
      then sample censDf (C - (((n - target : ℕ) : ℤ) - e).toNat) else censDf) with hckdef
  have hperm := List.perm_insertionSort (fun a b : PatientRecord => a.time ≤ b.time) (ek ++ ck)
  constructor
  ·
    rw [sortByTime]
    rw [hperm.length_eq, List.length_append, hek.1, hck.1]
    omega
  ·
    have hcount : (List.filter (fun r => r.event == 1)
        (List.insertionSort (fun a b : PatientRecord => a.time ≤ b.time) (ek ++ ck))).length
        = (List.filter (fun r => r.event == 1) (ek ++ ck)).length := by
      rw [← List.countP_eq_length_filter, ← List.countP_eq_length_filter]
      exact hperm.countP_eq _
    rw [sortByTime, hcount, List.filter_append, List.length_append]
    have hfek : List.filter (fun r => r.event == 1) ek = ek :=
      List.filter_eq_self.mpr hek.2
    have hfck : List.filter (fun r => r.event == 1) ck = [] := by
      rw [List.filter_eq_nil_iff]
      intro r hr
      have h0 : r.event = 0 := by
        have := hck.2 r hr
        simpa using this
      simp [h0]
    rw [hfek, hfck]
    simp only [List.length_nil, Nat.add_zero]
    rw [hek.1]
    have hle : e.toNat ≤ E := by omega
    rw [Nat.cast_sub hle]
    congr 1
    have hq : ((e.toNat : ℤ) : ℚ) = (e : ℚ) := by
      rw [Int.toNat_of_nonneg he0]
    exact_mod_cast hq

theorem takeSample_len (l : List PatientRecord) (k : ℕ) (h : k ≤ l.length) :
    (takeSample l k).length = k := by
  simp [takeSample, List.length_take, min_eq_left h]

theorem takeSample_mem (l : List PatientRecord) (k : ℕ) (r : PatientRecord)
    (h : r ∈ takeSample l k) : r ∈ l :=
  List.take_subset k l h

theorem takeResample_len (l : List PatientRecord) (k : ℕ) (h : l ≠ []) :
    (takeResample l k).length = k := by
  cases l with
  | nil => exact absurd rfl h
  | cons x xs => simp [takeResample]

theorem takeResample_mem (l : List PatientRecord) (k : ℕ) (r : PatientRecord)
    (h : r ∈ takeResample l k) : r ∈ l := by
  cases l with
  | nil => simp [takeResample] at h
  | cons x xs =>
    have : r = x := by
      simp only [takeResample] at h
      exact List.eq_of_mem_replicate h
    rw [this]
    exact List.mem_cons_self x xs

/-- C3: the PopulationNormalizer returns exactly `target_n` records for
every non-empty synthesized record list and `target_n >= 1`: equal sizes
are a no-op, downsizing removes exactly the excess split proportionally
between events and censored (the surviving event count is within 1/2 of
the exact proportional value), and upsizing appends exactly the deficit
as jittered duplicates. -/
theorem normalize_population_exact_size
    (sample resample : List PatientRecord → ℕ → List PatientRecord) (noise : ℕ → ℚ)
    (records : List PatientRecord) (target : ℕ)
    (hne : records ≠ []) (htgt : 1 ≤ target)
    (hev : ∀ r ∈ records, r.event = 0 ∨ r.event = 1)
    (hsampleLen : ∀ (l : List PatientRecord) (k : ℕ), k ≤ l.length → (sample l k).length = k)
    (hsampleMem : ∀ (l : List PatientRecord) (k : ℕ) (r : PatientRecord),
      r ∈ sample l k → r ∈ l)
    (hresampleLen : ∀ (l : List PatientRecord) (k : ℕ), l ≠ [] → (resample l k).length = k) :
    (normalizePopS sample resample noise records target).length = target ∧
    (records.length = target → normalizePopS sample resample noise records target = records) ∧
    (target < records.length →
      |(countEvents (normalizePopS sample resample noise records target) : ℚ)
        - (countEvents records : ℚ) * (target : ℚ) / (records.length : ℚ)| ≤ 1/2) ∧
    (records.length < target →
      ∃ added : List PatientRecord, added.length = target - records.length ∧
        (normalizePopS sample resample noise records target).Perm (records ++ added)) := by
  by_cases heq : records.length = target
  ·
    have hres : normalizePopS sample resample noise records target = records := by
      simp only [normalizePopS]
      rw [if_pos heq]
    refine ⟨by rw [hres]; exact heq, fun _ => hres, ?_, ?_⟩
    · intro h
      omega
    · intro h
      omega
  · by_cases hgt : target < records.length
    ·
      obtain ⟨hlen, hcnt⟩ :=
        downsizeS_spec sample records target hev htgt hgt hsampleLen hsampleMem
      have hres : normalizePopS sample resample noise records target
          = downsizeS sample records target := by
        simp only [normalizePopS]
        rw [if_neg heq, if_pos hgt]
      refine ⟨by rw [hres]; exact hlen, fun hcontra => absurd hcontra heq, ?_, ?_⟩
      · intro _
        rw [hres, hcnt]
        have hn0 : (0:ℚ) < (records.length : ℚ) := by
          have : 0 < records.length := by omega
          exact_mod_cast this
        have key : (countEvents records : ℚ) * (target : ℚ) / (records.length : ℚ)
            = (countEvents records : ℚ)
              - ((records.length - target : ℕ) : ℚ)
                * ((countEvents records : ℚ) / (records.length : ℚ)) := by
          rw [Nat.cast_sub hgt.le]
          field_simp
          ring
        rw [key]
        have b1 := pyRound_le (((records.length - target : ℕ) : ℚ)
          * ((countEvents records : ℚ) / (records.length : ℚ)))
        have b2 := le_pyRound (((records.length - target : ℕ) : ℚ)
          * ((countEvents records : ℚ) / (records.length : ℚ)))
        rw [abs_le]
        constructor <;> linarith
      · intro h
        omega
    ·
      have hlt : records.length < target := by omega
      have hjl : ((resample records (target - records.length)).enum.map
          (fun ir => ({ ir.2 with time := max (ir.2.time + noise ir.1) (1/1000) }
            : PatientRecord))).length
          = target - records.length := by
        rw [List.length_map, List.enum_length, hresampleLen records _ hne]
      have hres : normalizePopS sample resample noise records target
          = sortByTime (records ++ (resample records (target - records.length)).enum.map
              (fun ir => { ir.2 with time := max (ir.2.time + noise ir.1) (1/1000) })) := by
        simp only [normalizePopS, upsizeS]
        rw [if_neg heq, if_neg hgt, if_pos (fun h0 => hne (List.length_eq_zero.mp h0))]
      refine ⟨?_, fun hcontra => absurd hcontra heq, fun h => absurd h hgt, ?_⟩
      · rw [hres, sortByTime, (List.perm_insertionSort _ _).length_eq,
          List.length_append, hjl]
        omega
      · intro _
        refine ⟨_, hjl, ?_⟩
        rw [hres, sortByTime]
        exact List.perm_insertionSort _ _

theorem normalize_population_witness :
    (normalizePopS takeSample takeResample (fun _ => 0)
      [⟨1, 1⟩, ⟨2, 0⟩, ⟨3, 0⟩, ⟨4, 1⟩] 2).length = 2 :=
  (normalize_population_exact_size takeSample takeResample (fun _ => 0)
    [⟨1, 1⟩, ⟨2, 0⟩, ⟨3, 0⟩, ⟨4, 1⟩] 2
    (by simp) (by omega) (by decide) takeSample_len takeSample_mem takeResample_len).1

theorem synthRecords_inv (rng : ℕ → ℚ) (hrng : ∀ k, 0 ≤ rng k) :
    ∀ (zc : List (ℚ × ℤ × ℤ)) (k : ℕ), (∀ x ∈ zc, 0 ≤ x.1) →
    ∀ r ∈ synthRecords rng k zc, (r.event = 0 ∨ r.event = 1) ∧ 0 ≤ r.time := by
  intro zc
  induction zc with
  | nil =>
    intro k _ r hr
    simp [synthRecords] at hr
  | cons tc rest ih =>
    intro k ht r hr
    obtain ⟨t, d, c⟩ := tc
    have ht0 : (0:ℚ) ≤ t := ht (t, d, c) (List.mem_cons_self _ _)
    cases rest with
    | nil =>
      simp only [synthRecords] at hr
      have hre : r = ⟨t, 0⟩ := List.eq_of_mem_replicate hr
      rw [hre]
      exact ⟨Or.inl rfl, ht0⟩
    | cons q rest2 =>
      simp only [synthRecords] at hr
      rcases List.mem_append.mp hr with h1 | h2
      · rcases List.mem_append.mp h1 with h3 | h4
        · obtain ⟨j, _, heq⟩ := List.mem_map.mp h3
          rw [← heq]
          exact ⟨Or.inr rfl, add_nonneg ht0 (hrng (k + j))⟩
        · have hre : r = ⟨t, 0⟩ := List.eq_of_mem_replicate h4
          rw [hre]
          exact ⟨Or.inl rfl, ht0⟩
      · exact ih (k + d.toNat) (fun x hx => ht x (List.mem_cons_of_mem _ hx)) r h2

theorem applyRiskCummin_time_mem (rows : List AlignedPoint) (p : AlignedPoint)
    (h : p ∈ applyRiskCummin rows) : ∃ q ∈ rows, p.time = q.time := by
  unfold applyRiskCummin at h
  obtain ⟨⟨q, m⟩, hpm, heq⟩ := List.mem_map.mp h
  exact ⟨q, (List.of_mem_zip hpm).1, by rw [← heq]⟩

theorem alignRowE_time (ar : List (ℚ × ℤ)) (q : KMPoint) :
    (alignRowE ar q).time = q.time := by
  unfold alignRowE
  cases List.find? (fun a => a.1 == q.time) ar <;> rfl

theorem clipRow_time (initN : ℤ) (q : AlignedPoint) : (clipRow initN q).time = q.time := by
  simp only [clipRow]
  split_ifs <;> rfl

theorem alignAtRiskE_time_mem (km : List KMPoint) (ar : List (ℚ × ℤ)) (p : AlignedPoint)
    (h : p ∈ alignAtRiskE km ar) : ∃ q ∈ km, p.time = q.time := by
  simp only [alignAtRiskE] at h
  by_cases ha : ar = []
  · rw [if_pos ha] at h
    by_cases hm : 0 < listMax (km.map fun p => p.survival)
    · rw [if_pos hm] at h
      obtain ⟨q, hq, heq⟩ := List.mem_map.mp h
      exact ⟨q, hq, by rw [← heq]⟩
    · rw [if_neg hm] at h
      obtain ⟨q, hq, heq⟩ := List.mem_map.mp h
      exact ⟨q, hq, by rw [← heq]⟩
  · rw [if_neg ha] at h
    obtain ⟨q1, hq1, ht1⟩ := applyRiskCummin_time_mem _ p h
    obtain ⟨q2, hq2, heq2⟩ := List.mem_map.mp hq1
    have ht2 : q1.time = q2.time := by
      rw [← heq2]
      exact clipRow_time _ q2
    obtain ⟨q3, hq3, ht3⟩ := applyRiskCummin_time_mem _ q2 hq2
    obtain ⟨q4, hq4, heq4⟩ := List.mem_map.mp hq3
    have ht4 : q3.time = q4.time := by
      rw [← heq4]
      exact alignRowE_time ar q4
    exact ⟨q4, hq4, by rw [ht1, ht2, ht3, ht4]⟩

theorem filterDiffs_subset : ∀ (prev : KMPoint) (l : List KMPoint) (p : KMPoint),
    p ∈ filterDiffs prev l → p ∈ l := by
  intro prev l
  induction l generalizing prev with
  | nil =>
    intro p hp
    simp [filterDiffs] at hp
  | cons x xs ih =>
    intro p hp
    simp only [filterDiffs] at hp
    rcases List.mem_append.mp hp with h1 | h2
    · split_ifs at h1 with hc
      · have hpx : p = x := by simp at h1; exact h1
        rw [hpx]
        exact List.mem_cons_self x xs
      · simp at h1
    · exact List.mem_cons_of_mem x (ih x p h2)

theorem filterEventTimes_subset (l : List KMPoint) (p : KMPoint)
    (h : p ∈ filterEventTimes l) : p ∈ l := by
  cases l with
  | nil => simp [filterEventTimes] at h
  | cons x xs =>
    simp only [filterEventTimes] at h
    rcases List.mem_cons.mp h with h1 | h2
    · rw [h1]
      exact List.mem_cons_self x xs
    · exact List.mem_cons_of_mem x (filterDiffs_subset x xs p h2)

theorem normalizeScale_time_mem (l : List KMPoint) (p : KMPoint)
    (h : p ∈ normalizeScale l) : ∃ q ∈ l, p.time = q.time := by
  simp only [normalizeScale] at h
  split_ifs at h
  · obtain ⟨q, hq, heq⟩ := List.mem_map.mp h
    exact ⟨q, hq, by rw [← heq]; rfl⟩
  · exact ⟨p, h, rfl⟩

theorem kmUse_subset (kmNorm : List KMPoint) (q : KMPoint)
    (h : q ∈ (if (filterEventTimes kmNorm).length < 3
        then kmNorm else filterEventTimes kmNorm)) : q ∈ kmNorm := by
  split_ifs at h
  · exact h
  · exact filterEventTimes_subset kmNorm q h

theorem mem_ite_sample (sample : List PatientRecord → ℕ → List PatientRecord)
    (hsampleMem : ∀ (l : List PatientRecord) (k : ℕ) (r : PatientRecord),
      r ∈ sample l k → r ∈ l)
    (df : List PatientRecord) (c : Prop) [Decidable c] (k : ℕ) (r : PatientRecord)
    (h : r ∈ (if c then sample df k else df)) : r ∈ df := by
  split_ifs at h
  · exact hsampleMem _ _ _ h
  · exact h

theorem normalizePopE_inv (sample resample : List PatientRecord → ℕ → List PatientRecord)
    (noise : ℕ → ℚ) (recs : List PatientRecord) (target : ℕ)
    (hsampleMem : ∀ (l : List PatientRecord) (k : ℕ) (r : PatientRecord),
      r ∈ sample l k → r ∈ l)
    (hresampleMem : ∀ (l : List PatientRecord) (k : ℕ) (r : PatientRecord),
      r ∈ resample l k → r ∈ l)
    (hrecs : ∀ r ∈ recs, (r.event = 0 ∨ r.event = 1) ∧ 0 ≤ r.time) :
    ∀ r ∈ normalizePopE sample resample noise recs target,
      (r.event = 0 ∨ r.event = 1) ∧ 0 ≤ r.time := by
  intro r hr
  simp only [normalizePopE] at hr
  split_ifs at hr with h1 h2
  · exact hrecs r hr
  · rw [sortByTime] at hr
    have hr2 : r ∈ downsizeE sample recs target :=
      (List.perm_insertionSort _ _).mem_iff.mp hr
    simp only [downsizeE] at hr2
    rcases List.mem_append.mp hr2 with h3 | h3
    · exact hrecs r (List.mem_filter.mp (mem_ite_sample sample hsampleMem _ _ _ r h3)).1
    · exact hrecs r (List.mem_filter.mp (mem_ite_sample sample hsampleMem _ _ _ r h3)).1
  · rw [sortByTime] at hr
    have hr2 : r ∈ upsizeE resample noise recs target :=
      (List.perm_insertionSort _ _).mem_iff.mp hr
    simp only [upsizeE] at hr2
    split_ifs at hr2 with hg
    · rcases List.mem_append.mp hr2 with h3 | h3
      · exact hrecs r h3
      · obtain ⟨⟨i, dup⟩, hir, heq⟩ := List.mem_map.mp h3
        have hdup : dup ∈ resample recs (target - recs.length) := by
          have henum := hir
          rw [List.enum_eq_zip_range] at henum
          exact (List.of_mem_zip henum).2
        have hmem := hresampleMem _ _ _ hdup
        constructor
        · rw [← heq]
          exact (hrecs _ hmem).1
        · rw [← heq]
          show (0:ℚ) ≤ max (dup.time + noise i) (1/1000)
          exact le_trans (by norm_num) (le_max_right _ _)
    · exact hrecs r hr2

/-- C8 amended: every record of the final reconstructed output has an
event value in {0,1} and a non-negative time, given non-negative input
times and jitter draws; censored records sit exactly on their interval's
start time, so time 0 occurs when the grid starts at 0 and strict
positivity cannot be guaranteed. -/
theorem records_event_binary_time_nonneg
    (km : List KMPoint) (ar : List (ℚ × ℤ)) (rng : ℕ → ℚ)
    (sample resample : List PatientRecord → ℕ → List PatientRecord) (noise : ℕ → ℚ)
    (recs : List PatientRecord)
    (hkm : ∀ p ∈ km, 0 ≤ p.time)
    (hrng : ∀ k, 0 ≤ rng k)
    (hsampleMem : ∀ (l : List PatientRecord) (k : ℕ) (r : PatientRecord),
      r ∈ sample l k → r ∈ l)
    (hresampleMem : ∀ (l : List PatientRecord) (k : ℕ) (r : PatientRecord),
      r ∈ resample l k → r ∈ l)
    (hok : kmExtractorReconstruct km ar rng sample resample noise = Except.ok recs) :
    ∀ r ∈ recs, (r.event = 0 ∨ r.event = 1) ∧ 0 ≤ r.time := by
  simp only [kmExtractorReconstruct] at hok
  split_ifs at hok with hemp
  have hrecs : kmExtractorBody (normalizeScale (sortByTimeK km)) (sortByFst ar)
      rng sample resample noise = recs := by
    exact (Except.ok.injEq _ _).mp hok
  have hnorm : ∀ p ∈ normalizeScale (sortByTimeK km), 0 ≤ p.time := by
    intro p hp
    obtain ⟨q, hq, ht⟩ := normalizeScale_time_mem _ p hp
    rw [ht]
    exact hkm q ((List.perm_insertionSort _ km).mem_iff.mp hq)
  intro r hr
  rw [← hrecs] at hr
  simp only [kmExtractorBody] at hr
  refine normalizePopE_inv sample resample noise _ _ hsampleMem hresampleMem ?_ r hr
  intro r2 hr2
  refine synthRecords_inv rng hrng _ 0 ?_ r2 hr2
  intro x hx
  obtain ⟨t, dc⟩ := x
  have hx1 := (List.of_mem_zip hx).1
  obtain ⟨p, hp, ht⟩ := List.mem_map.mp hx1
  obtain ⟨q, hq, ht2⟩ := alignAtRiskE_time_mem _ _ p hp
  have hq2 : q ∈ normalizeScale (sortByTimeK km) := kmUse_subset _ q hq
  show (0:ℚ) ≤ t
  rw [← ht, ht2]
  exact hnorm q hq2

theorem records_invariant_witness :
    ((⟨0, 0⟩ : PatientRecord).event = 0 ∨ (⟨0, 0⟩ : PatientRecord).event = 1) ∧
      0 ≤ (⟨0, 0⟩ : PatientRecord).time :=
  records_event_binary_time_nonneg c8km c8ar (fun _ => 0) takeSample takeResample
    (fun _ => 0) [⟨0 + 0, 1⟩, ⟨0, 0⟩, ⟨6, 0⟩, ⟨6, 0⟩]
    (by
      intro p hp
      rcases List.mem_cons.mp hp with h | h
      · rw [h]
      · rcases List.mem_cons.mp h with h2 | h2
        · rw [h2]; norm_num
        · simp [c8km] at h2)
    (fun _ => le_refl 0)
    takeSample_mem takeResample_mem
    (c8_reconstruct_eval (fun _ => 0))
    ⟨0, 0⟩ (List.mem_cons_of_mem _ (List.mem_cons_self _ _))

theorem div100_time (p : KMPoint) : (div100 p).time = p.time := rfl

theorem orderedInsert_div100 (x : KMPoint) : ∀ l : List KMPoint,
    List.orderedInsert (fun a b : KMPoint => a.time ≤ b.time) (div100 x) (l.map div100)
      = (List.orderedInsert (fun a b : KMPoint => a.time ≤ b.time) x l).map div100 := by
  intro l
  induction l with
  | nil => rfl
  | cons y ys ih =>
    simp only [List.map_cons, List.orderedInsert, div100_time]
    by_cases h : x.time ≤ y.time
    · rw [if_pos h, if_pos h]
      simp [List.map_cons]
    · rw [if_neg h, if_neg h, List.map_cons, ih]

theorem sortByTimeK_div100 (l : List KMPoint) :
    sortByTimeK (l.map div100) = (sortByTimeK l).map div100 := by
  unfold sortByTimeK
  induction l with
  | nil => rfl
  | cons x xs ih =>
    simp only [List.map_cons, List.insertionSort]
    rw [ih, orderedInsert_div100]

theorem surv_map_div100 (l : List KMPoint) :
    (l.map div100).map (fun p => p.survival)
      = (l.map (fun p => p.survival)).map (fun s => s / 100) := by
  simp [div100]

theorem max_div100 (a b : ℚ) : max (a / 100) (b / 100) = max a b / 100 := by
  rcases le_total a b with h | h
  · rw [max_eq_right h, max_eq_right (by linarith : a / 100 ≤ b / 100)]
  · rw [max_eq_left h, max_eq_left (by linarith : b / 100 ≤ a / 100)]

theorem foldl_max_div100 (m : List ℚ) : ∀ a : ℚ,
    (m.map (fun s => s / 100)).foldl max (a / 100) = m.foldl max a / 100 := by
  induction m with
  | nil => intro a; rfl
  | cons x xs ih =>
    intro a
    simp only [List.map_cons, List.foldl_cons]
    rw [max_div100, ih]

theorem listMax_div100 (m : List ℚ) :
    listMax (m.map (fun s => s / 100)) = listMax m / 100 := by
  cases m with
  | nil => simp [listMax]
  | cons x xs =>
    simp only [List.map_cons, listMax]
    exact foldl_max_div100 xs x

theorem listMax_sort_eq (l : List KMPoint) :
    listMax ((sortByTimeK l).map (fun p => p.survival))
      = listMax (l.map (fun p => p.survival)) :=
  listMax_perm ((List.perm_insertionSort _ l).map _)

/-- C10: the service-layer reconstruction divides every survival value
by 100 when the payload's maximum survival exceeds 1.5 (treating it as
percentage-scaled), leaves payloads with maximum at most 1.5 unchanged,
and consequently a percentage-scale curve and its /100 proportion-scale
equivalent reconstruct identically. -/
theorem percentage_scale_normalization (km : List KMPoint) (ar : List (ℚ × ℤ))
    (rng : ℕ → ℚ) (sample resample : List PatientRecord → ℕ → List PatientRecord)
    (noise : ℕ → ℚ)
    (hgt : 3/2 < listMax (km.map (fun p => p.survival)))
    (hle : listMax (km.map (fun p => p.survival)) ≤ 150) :
    (∀ l : List KMPoint, listMax (l.map (fun p => p.survival)) ≤ 3/2 →
      normalizeScale l = l) ∧
    normalizeScale (sortByTimeK km) = (sortByTimeK km).map div100 ∧
    kmExtractorReconstruct km ar rng sample resample noise
      = kmExtractorReconstruct (km.map div100) ar rng sample resample noise := by
  have hsorted : listMax ((sortByTimeK km).map (fun p => p.survival))
      = listMax (km.map (fun p => p.survival)) := listMax_sort_eq km
  have hA : ∀ l : List KMPoint, listMax (l.map (fun p => p.survival)) ≤ 3/2 →
      normalizeScale l = l := by
    intro l hl
    simp only [normalizeScale]
    rw [if_neg (not_lt.mpr hl)]
  have hB : normalizeScale (sortByTimeK km) = (sortByTimeK km).map div100 := by
    simp only [normalizeScale]
    rw [if_pos (by rw [hsorted]; exact hgt)]
  refine ⟨hA, hB, ?_⟩
  have hkm_ne : km ≠ [] := by
    intro h
    rw [h] at hgt
    norm_num [listMax] at hgt
  have hmap_ne : km.map div100 ≠ [] := by
    simp [hkm_ne]
  have hkey : normalizeScale (sortByTimeK (km.map div100))
      = normalizeScale (sortByTimeK km) := by
    rw [sortByTimeK_div100]
    have hmax2 : listMax (((sortByTimeK km).map div100).map (fun p => p.survival))
        = listMax ((sortByTimeK km).map (fun p => p.survival)) / 100 := by
      rw [surv_map_div100, listMax_div100]
    have hle2 : listMax (((sortByTimeK km).map div100).map (fun p => p.survival)) ≤ 3/2 := by
      rw [hmax2, hsorted]
      linarith
    rw [hA _ hle2, hB]
  simp only [kmExtractorReconstruct]
  rw [if_neg hkm_ne, if_neg hmap_ne, hkey]

theorem percentage_scale_witness :
    kmExtractorReconstruct [⟨0, 100⟩, ⟨6, 75⟩] c8ar (fun _ => 0)
        takeSample takeResample (fun _ => 0)
      = kmExtractorReconstruct ([⟨0, 100⟩, ⟨6, 75⟩].map div100) c8ar (fun _ => 0)
        takeSample takeResample (fun _ => 0) :=
  (percentage_scale_normalization [⟨0, 100⟩, ⟨6, 75⟩] c8ar (fun _ => 0)
    takeSample takeResample (fun _ => 0)
    (by norm_num [listMax]) (by norm_num [listMax])).2.2

theorem empty_curve_witness :
    kmExtractorReconstruct [] [] (fun _ => 0) takeSample takeResample (fun _ => 0)
      = Except.error ("No KM points provided") :=
  (empty_curve_reconstruction_fails [] (fun _ => 0) takeSample takeResample (fun _ => 0)).1

/-- C1 counterexample: the km_extractor estimator has no
`s_next < s_curr` guard and subtracts the unclamped (negative) events
term, so on a rising-survival interval (S 1/2 to 3/5 with 10 at risk at
both ends) it emits a censored count of 2 where the claimed formulas
give 0. -/
theorem extractor_censor_count_mismatch :
    extractorFloatCounts [⟨0, 1/2, 10⟩, ⟨6, 3/5, 10⟩] = [(0, 2), (0, 10)] ∧
    specFloatCounts [⟨0, 1/2, 10⟩, ⟨6, 3/5, 10⟩] = [(0, 0), (0, 10)] ∧
    extractorFloatCounts [⟨0, 1/2, 10⟩, ⟨6, 3/5, 10⟩]
      ≠ specFloatCounts [⟨0, 1/2, 10⟩, ⟨6, 3/5, 10⟩] := by
  have h1 : extractorFloatCounts [⟨0, 1/2, 10⟩, ⟨6, 3/5, 10⟩] = [(0, 2), (0, 10)] := by
    norm_num [extractorFloatCounts, extractorIntervalFloat]
  have h2 : specFloatCounts [⟨0, 1/2, 10⟩, ⟨6, 3/5, 10⟩] = [(0, 0), (0, 10)] := by
    norm_num [specFloatCounts, specEventCount, specCensorCount]
  refine ⟨h1, h2, ?_⟩
  rw [h1, h2]
  norm_num

theorem extractorInterval_eq_spec (p q : AlignedPoint) (h : 0 ≤ p.nrisk)
    (hs : q.survival ≤ p.survival) :
    extractorIntervalFloat p q
      = (specEventCount p.survival q.survival p.nrisk,
          specCensorCount p.survival q.survival p.nrisk q.nrisk) := by
  by_cases hp : 0 < p.survival
  · by_cases hlt : q.survival < p.survival
    · have hcond : 0 < p.survival ∧ q.survival < p.survival := ⟨hp, hlt⟩
      have hd : (0 : ℚ) ≤ (p.nrisk : ℚ) * (1 - q.survival / p.survival) := by
        apply mul_nonneg
        · exact_mod_cast h
        · have hdiv : q.survival / p.survival < 1 := (div_lt_one hp).mpr hlt
          linarith
      simp only [extractorIntervalFloat, specEventCount, specCensorCount,
        if_pos hp, if_pos hcond]
      rw [max_eq_right hd]
    · have heq : q.survival = p.survival := le_antisymm hs (not_lt.mp hlt)
      have hzero : (p.nrisk : ℚ) * (1 - q.survival / p.survival) = 0 := by
        rw [heq, div_self (ne_of_gt hp)]
        ring
      simp only [extractorIntervalFloat, specEventCount, specCensorCount,
        if_pos hp, if_neg (fun hc : 0 < p.survival ∧ q.survival < p.survival => hlt hc.2)]
      rw [hzero]
      norm_num
  · simp only [extractorIntervalFloat, specEventCount, specCensorCount,
      if_neg hp, if_neg (fun hc : 0 < p.survival ∧ q.survival < p.survival => hp hc.1)]
    norm_num

theorem extractorFloatCounts_eq_spec : ∀ pts : List AlignedPoint,
    (∀ p ∈ pts, 0 ≤ p.nrisk) →
    List.Chain' (fun a b => b.survival ≤ a.survival) pts →
    extractorFloatCounts pts = specFloatCounts pts := by
  intro pts
  induction pts with
  | nil => intro _ _; rfl
  | cons p rest ih =>
    intro h hc
    cases rest with
    | nil => rfl
    | cons q rest2 =>
      have hp : 0 ≤ p.nrisk := h p (List.mem_cons_self p _)
      have h2 : ∀ x ∈ q :: rest2, 0 ≤ x.nrisk :=
        fun x hx => h x (List.mem_cons_of_mem p hx)
      have hcc := List.chain'_cons.mp hc
      show extractorIntervalFloat p q :: extractorFloatCounts (q :: rest2)
        = (specEventCount p.survival q.survival p.nrisk,
            specCensorCount p.survival q.survival p.nrisk q.nrisk)
          :: specFloatCounts (q :: rest2)
      rw [extractorInterval_eq_spec p q hp hcc.1, ih h2 hcc.2]

theorem extractorFloatCounts_ne_nil (p : AlignedPoint) (rest : List AlignedPoint) :
    extractorFloatCounts (p :: rest) ≠ [] := by
  cases rest <;> simp [extractorFloatCounts]

theorem extractorFloatCounts_getLast : ∀ pts : List AlignedPoint, ∀ p : AlignedPoint,
    pts.getLast? = some p →
    (extractorFloatCounts pts).getLast? = some (0, (p.nrisk : ℚ)) := by
  intro pts
  induction pts with
  | nil => intro p hp; simp at hp
  | cons x rest ih =>
    intro p hp
    cases rest with
    | nil =>
      have hx : x = p := by simpa using hp
      subst hx
      rfl
    | cons q rest2 =>
      have hp2 : (q :: rest2).getLast? = some p := by
        rwa [getLast?_cons_ne_nil x (List.cons_ne_nil q rest2)] at hp
      show (extractorIntervalFloat x q :: extractorFloatCounts (q :: rest2)).getLast?
        = some (0, (p.nrisk : ℚ))
      rw [getLast?_cons_ne_nil _ (extractorFloatCounts_ne_nil q rest2)]
      exact ih p hp2

/-- C1 amended: on every aligned series with non-negative at-risk
counts, the km_scripts estimator computes exactly the claimed fractional
counts (events `d_i = N_i * (1 - S_next/S_i)` when `S_i > 0` and
`S_next < S_i`, else 0; censored `c_i = N_i - N_next - d_i` clamped to
be non-negative); the km_extractor estimator, which omits the
`S_next < S_i` guard and subtracts the unclamped events term, computes
the claimed counts exactly when survival is non-increasing across
consecutive points (and diverges on rising survival, see the
counterexample); both treat the final interval as zero events with the
entire remaining at-risk population censored at the last observed
timepoint. -/
theorem guyot_interval_counts_amended (pts : List AlignedPoint)
    (h : ∀ p ∈ pts, 0 ≤ p.nrisk) :
    guyotFloatCounts pts = specFloatCounts pts ∧
    (List.Chain' (fun a b => b.survival ≤ a.survival) pts →
      extractorFloatCounts pts = specFloatCounts pts) ∧
    (∀ p : AlignedPoint, pts.getLast? = some p →
      (guyotFloatCounts pts).getLast? = some (0, (p.nrisk : ℚ)) ∧
      (extractorFloatCounts pts).getLast? = some (0, (p.nrisk : ℚ))) :=
  ⟨guyotFloatCounts_eq_spec pts h,
   extractorFloatCounts_eq_spec pts h,
   fun p hp => ⟨guyotFloatCounts_getLast pts p hp, extractorFloatCounts_getLast pts p hp⟩⟩

theorem guyot_interval_counts_amended_witness :
    guyotFloatCounts [⟨0, 1, 100⟩, ⟨6, 4/5, 70⟩, ⟨12, 3/5, 40⟩]
        = specFloatCounts [⟨0, 1, 100⟩, ⟨6, 4/5, 70⟩, ⟨12, 3/5, 40⟩] ∧
    extractorFloatCounts [⟨0, 1, 100⟩, ⟨6, 4/5, 70⟩, ⟨12, 3/5, 40⟩]
        = specFloatCounts [⟨0, 1, 100⟩, ⟨6, 4/5, 70⟩, ⟨12, 3/5, 40⟩] ∧
    (extractorFloatCounts [⟨0, 1, 100⟩, ⟨6, 4/5, 70⟩, ⟨12, 3/5, 40⟩]).getLast?
        = some (0, ((40 : ℤ) : ℚ)) := by
  have h := guyot_interval_counts_amended
    [⟨0, 1, 100⟩, ⟨6, 4/5, 70⟩, ⟨12, 3/5, 40⟩] (by decide)
  refine ⟨h.1, h.2.1 ?_, (h.2.2 ⟨12, 3/5, 40⟩ rfl).2⟩
  refine List.chain'_cons.mpr ⟨?_, List.chain'_cons.mpr ⟨?_, List.chain'_singleton _⟩⟩
  · show (4 : ℚ)/5 ≤ 1
    norm_num
  · show (3 : ℚ)/5 ≤ 4/5
    norm_num
